import Mathlib

/-!
# Verification of the ne-schemata merge/pare engine

A shallow embedding of the SDL merge/pare engine of the `ne-schemata`
repository (the `Schemata` class: `mergeSDL`, `pareSDL`, the helpers
`combineTypeAndSubType`, `pareTypeAndSubType`, `normalizeSource`, and the
default conflict-resolver registry), together with theorems checking the
natural-language specification against it.

Modelling conventions:

* GraphQL AST nodes are records with a string `kind`, a string `name` and
  optional sub-collections.  A JavaScript object property that is absent
  (`undefined`) is modelled as `none`; an empty array is `some []` (which,
  like in JavaScript, is truthy).
* JavaScript exceptions (`TypeError` on property access of `undefined`,
  thrown `Error`s, `ReferenceError`s) are modelled with `Except`, and a
  `for..of` loop whose body can throw is an explicit fold in `Except`.
* The caller-visible resolver map is a JavaScript object graph; because
  `pareSDL` clones it only shallowly (`Object.assign`) and then deletes
  entries through shared nested references, objects are modelled in an
  explicit heap of cells addressed by `Nat`, resolver functions by opaque
  identifiers.  Present property values are treated as truthy, which is
  accurate for resolver maps (their values are functions and objects).
* Parsing and printing text into/out of trees is the external `graphql`
  collaborator and out of scope per the spec; engine theorems therefore
  operate on parsed documents, and source normalization (`normalizeSource`)
  is embedded separately for the input-error claims.
-/

namespace NeSchemata

/-! ## JavaScript value model: resolver-map heap -/

/-- A value stored in a resolver map: either a resolver function (identified
opaquely by a number) or a reference to another object cell. -/
inductive RVal where
  | fn (id : Nat)
  | ref (addr : Nat)
deriving DecidableEq, Repr

/-- A JavaScript object: an insertion-ordered association list from property
names to values. -/
abbrev Obj := List (String × RVal)

/-- Property read `o[k]`: `none` models `undefined`. -/
def Obj.get (o : Obj) (k : String) : Option RVal :=
  (o.find? (fun e => e.1 == k)).map (fun e => e.2)

/-- `delete o[k]`. -/
def Obj.del (o : Obj) (k : String) : Obj :=
  o.filter (fun e => e.1 != k)

/-- The store of object cells; addresses are indices, allocation appends. -/
structure Heap where
  cells : List Obj
deriving DecidableEq, Repr

/-- Dereference an address (an address past the end reads as the empty
object, which is only ever exercised on dangling references). -/
def Heap.read (h : Heap) (c : Nat) : Obj :=
  h.cells.getD c []

/-- Overwrite the cell at an address (no-op past the end). -/
def Heap.write (h : Heap) (c : Nat) (o : Obj) : Heap :=
  ⟨h.cells.set c o⟩

/-- Allocate a fresh cell, returning the new heap and the new address. -/
def Heap.alloc (h : Heap) (o : Obj) : Heap × Nat :=
  (⟨h.cells ++ [o]⟩, h.cells.length)

/-! ## JavaScript array operations used by the engine -/

/-- First index of a matching element, if any. -/
def jsIndexOfAux [BEq α] (x : α) : List α → Option Nat
  | [] => none
  | y :: t => if y == x then some 0 else (jsIndexOfAux x t).map (fun i => i + 1)

/-- `Array.prototype.indexOf`: first index of a matching element, `-1` when
absent.  (In the engine the searched element always originates from the
searched array or from a differently-kinded collection, so structural
equality agrees with JavaScript reference equality.) -/
def jsIndexOf [BEq α] (l : List α) (x : α) : Int :=
  match jsIndexOfAux x l with
  | some i => (i : Int)
  | none => -1

/-- `Array.prototype.splice(start, deleteCount, ...items)` with JavaScript's
clamping of a negative or out-of-range start index. -/
def jsSplice (l : List α) (start : Int) (delCount : Nat) (items : List α) : List α :=
  let s : Nat :=
    if start < 0 then ((l.length : Int) + start).toNat
    else min start.toNat l.length
  l.take s ++ items ++ l.drop (s + delCount)

/-! ## AST data model -/

/-- A sub-node of a type definition: a field definition, a directive, an enum
value or a union member reference.  `kind` is the AST kind string, `name` the
node's name, and `detail` stands opaquely for every remaining property of the
node (type signature, arguments, nested directives, ...), which the engine
never inspects. -/
structure SubNode where
  kind : String
  name : String
  detail : String
deriving DecidableEq, Repr

/-- A top-level type definition node.  The four optional sub-collections
model the properties a parsed node of each kind actually has: object,
interface and input kinds carry `directives` and `fields`; enums carry
`directives` and `values`; unions carry `directives` and `types`; scalars
carry only `directives`.  An absent property is `none`. -/
structure TypeDef where
  kind : String
  name : String
  directives : Option (List SubNode)
  fields : Option (List SubNode)
  values : Option (List SubNode)
  types : Option (List SubNode)
deriving DecidableEq, Repr

/-- A parsed SDL document: its ordered list of top-level definitions. -/
abbrev Document := List TypeDef

/-- Dynamic property access `t[subTypeName]` for the sub-collections the
engine touches. -/
def TypeDef.getColl (t : TypeDef) : String → Option (List SubNode)
  | "fields" => t.fields
  | "directives" => t.directives
  | "values" => t.values
  | "types" => t.types
  | _ => none

/-- Dynamic property write `t[subTypeName] = l`. -/
def TypeDef.setColl (t : TypeDef) (s : String) (l : List SubNode) : TypeDef :=
  if s == "fields" then { t with fields := some l }
  else if s == "directives" then { t with directives := some l }
  else if s == "values" then { t with values := some l }
  else if s == "types" then { t with types := some l }
  else t

/-! ## Errors and the exception-aware loop -/

/-- The runtime failures the engine can produce. -/
inductive JSError where
  | typeError (msg : String)
  | invalidInput (msg : String)
  | referenceError (msg : String)
deriving DecidableEq, Repr

/-- A `for..of` loop whose body may throw: the fold aborts at the first
error, like a JavaScript exception unwinding out of the loop. -/
def exFold (f : σ → α → Except JSError σ) : σ → List α → Except JSError σ
  | s, [] => .ok s
  | s, a :: l =>
    match f s a with
    | .error e => .error e
    | .ok s' => exFold f s' l

/-! ## Conflict resolver registry -/

/-- The shared signature of the field / directive / enum-value / union-member
conflict resolvers: `(leftContainer, leftSubNode, rightContainer,
rightSubNode) -> SubNode`. -/
abbrev SubResolver := TypeDef → SubNode → TypeDef → SubNode → SubNode

/-- The scalar resolver signature: `(leftScalarDef, leftConfig, rightScalarDef,
rightConfig) -> config`; a `GraphQLScalarTypeConfig` is opaque to the engine
and modelled by a numeric identifier, absent configs by `none`. -/
abbrev ScalarResolver := TypeDef → Option Nat → TypeDef → Option Nat → Option Nat

/-- `DefaultFieldMergeResolver`: blindly returns the right field. -/
def DefaultFieldMergeResolver : SubResolver := fun _ _ _ rightField => rightField

/-- `DefaultDirectiveMergeResolver`: blindly returns the right directive. -/
def DefaultDirectiveMergeResolver : SubResolver := fun _ _ _ rightDirective => rightDirective

/-- `DefaultEnumMergeResolver`: blindly returns the right enum value. -/
def DefaultEnumMergeResolver : SubResolver := fun _ _ _ rightValue => rightValue

/-- `DefaultUnionMergeResolver`: blindly returns the right union member. -/
def DefaultUnionMergeResolver : SubResolver := fun _ _ _ rightUnion => rightUnion

/-- `DefaultScalarMergeResolver`: the right config if present, else the left
config, else null. -/
def DefaultScalarMergeResolver : ScalarResolver := fun _ leftConfig _ rightConfig =>
  match rightConfig with
  | some c => some c
  | none => leftConfig

/-- The conflict-resolver registry: one handler per category. -/
structure ConflictResolvers where
  fieldMergeResolver : SubResolver
  directiveMergeResolver : SubResolver
  enumValueMergeResolver : SubResolver
  typeValueMergeResolver : SubResolver
  scalarMergeResolver : ScalarResolver

/-- The module-level `DefaultConflictResolvers` object (its initial value;
`mergeSDL` mutates the shared object, which theorems track explicitly as a
registry state). -/
def DefaultConflictResolvers : ConflictResolvers :=
  { fieldMergeResolver := DefaultFieldMergeResolver
    directiveMergeResolver := DefaultDirectiveMergeResolver
    enumValueMergeResolver := DefaultEnumMergeResolver
    typeValueMergeResolver := DefaultUnionMergeResolver
    scalarMergeResolver := DefaultScalarMergeResolver }

/-- A caller-supplied registry: each handler optional, unspecified handlers
fall back to the current defaults (shallow `Object.assign` semantics). -/
structure CustomResolvers where
  fieldMergeResolver : Option SubResolver := none
  directiveMergeResolver : Option SubResolver := none
  enumValueMergeResolver : Option SubResolver := none
  typeValueMergeResolver : Option SubResolver := none
  scalarMergeResolver : Option ScalarResolver := none

/-- `Object.assign(target, custom)`: properties present on `custom` overwrite
the target's. -/
def applyCustom (reg : ConflictResolvers) (c : CustomResolvers) : ConflictResolvers :=
  { fieldMergeResolver := c.fieldMergeResolver.getD reg.fieldMergeResolver
    directiveMergeResolver := c.directiveMergeResolver.getD reg.directiveMergeResolver
    enumValueMergeResolver := c.enumValueMergeResolver.getD reg.enumValueMergeResolver
    typeValueMergeResolver := c.typeValueMergeResolver.getD reg.typeValueMergeResolver
    scalarMergeResolver := c.scalarMergeResolver.getD reg.scalarMergeResolver }

/-- The `subTypeResolverMap` lookup followed by the dynamic registry access
`conflictResolvers[resolver]`, with the source's `|| 'fieldMergeResolver'`
fallback.  (`combineTypeAndSubType` is only ever called with the four
collection names below, never with `'scalars'`.) -/
def subResolverFor (cr : ConflictResolvers) (subTypeName : String) : SubResolver :=
  if subTypeName == "directives" then cr.directiveMergeResolver
  else if subTypeName == "values" then cr.enumValueMergeResolver
  else if subTypeName == "types" then cr.typeValueMergeResolver
  else cr.fieldMergeResolver

/-! ## Node normalizer -/

/-- The kind rewrite applied to extension nodes:
`kind.substring(0, kind.length - 'Extension'.length) + 'Definition'` when the
kind ends in `Extension`, the kind unchanged otherwise.  Stated on the
character sequence (kind strings are ASCII, so JavaScript's UTF-16 length
and suffix test agree with the character-level ones). -/
def normKindStr (k : String) : String :=
  if "Extension".data.isSuffixOf k.data then
    ⟨k.data.take (k.data.length - 9)⟩ ++ "Definition"
  else k

/-- The inline extension normalization both engines perform on every
source-side node: a shallow copy (`Object.assign`) whose kind is rewritten,
all other properties untouched. -/
def normalizeExtensionNode (r : TypeDef) : TypeDef :=
  { r with kind := normKindStr r.kind }

/-! ## Sibling matcher and in-place mutation of the definition list -/

/-- Replace the first occurrence of a node in the definition list (in-place
mutation of the found `lType` object, seen functionally). -/
def replaceNode : Document → TypeDef → TypeDef → Document
  | [], _, _ => []
  | d :: ds, old, new => if d == old then new :: ds else d :: replaceNode ds old new

/-- `definitions.indexOf(lType)` followed by `splice(index, 1)`: remove the
first occurrence of the node, if any. -/
def removeFirst : Document → TypeDef → Document
  | [], _ => []
  | d :: ds, x => if d == x then ds else d :: removeFirst ds x

/-! ## combineTypeAndSubType (merge of one sub-collection) -/

/-- One iteration of `combineTypeAndSubType`'s loop over the right-hand
sub-collection.  Faithful to the source, including the slip that the splice
index is computed with `lType.fields.indexOf(lSubType)` whatever collection
is being merged: for a non-`fields` collection this throws a `TypeError`
when the container has no `fields` property and otherwise splices at `-1`
(the last position) or at an unrelated index. -/
def combineStep (subTypeName : String) (cr : ConflictResolvers) (rType : TypeDef)
    (lType : TypeDef) (rSubType : SubNode) : Except JSError TypeDef :=
  match lType.getColl subTypeName with
  | none => .error (.typeError "Cannot read property find of undefined")
  | some lSubs =>
    match lSubs.find? (fun f => f.name == rSubType.name) with
    | none => .ok (lType.setColl subTypeName (lSubs ++ [rSubType]))
    | some lSubType =>
      let resultingSubType := subResolverFor cr subTypeName lType lSubType rType rSubType
      match lType.fields with
      | none => .error (.typeError "Cannot read property indexOf of undefined")
      | some fs =>
        let index := jsIndexOf fs lSubType
        .ok (lType.setColl subTypeName (jsSplice lSubs index 1 [resultingSubType]))

/-- `combineTypeAndSubType(subTypeName, lType, rType, conflictResolvers)`:
merge one sub-collection of `rType` into `lType`.  A right-hand container
without the collection is skipped (`if (rType[subTypeName])`). -/
def combineTypeAndSubType (subTypeName : String) (lType rType : TypeDef)
    (cr : ConflictResolvers) : Except JSError TypeDef :=
  match rType.getColl subTypeName with
  | none => .ok lType
  | some rSubs => exFold (combineStep subTypeName cr rType) lType rSubs

/-! ## Resolver-map synchronizer (deletion on pare) -/

/-- The inline deletion `pareTypeAndSubType` performs after removing a
sub-node named `fName` from the container named `tName`:
`delete resolvers[tName][fName]` when `resolvers[tName]` and
`resolvers[tName][fName]` are truthy, else `delete resolvers[fName]` when
that is truthy. -/
def deleteResolverEntry (h : Heap) (resAddr : Nat) (tName fName : String) : Heap :=
  match (h.read resAddr).get tName with
  | some (RVal.ref c) =>
    if ((h.read c).get fName).isSome then h.write c ((h.read c).del fName)
    else if ((h.read resAddr).get fName).isSome then
      h.write resAddr ((h.read resAddr).del fName)
    else h
  | some (RVal.fn _) =>
    -- property access on a function value yields undefined, so only the
    -- flattened branch can fire
    if ((h.read resAddr).get fName).isSome then
      h.write resAddr ((h.read resAddr).del fName)
    else h
  | none =>
    if ((h.read resAddr).get fName).isSome then
      h.write resAddr ((h.read resAddr).del fName)
    else h

/-! ## pareTypeAndSubType (subtraction of one sub-collection) -/

/-- One iteration of `pareTypeAndSubType`'s loop, with the same
`lType.fields.indexOf` slip as the merge side. -/
def pareStep (subTypeName : String) (resAddr : Nat)
    (st : TypeDef × Heap) (rSubType : SubNode) : Except JSError (TypeDef × Heap) :=
  match st.1.getColl subTypeName with
  | none => .error (.typeError "Cannot read property find of undefined")
  | some lSubs =>
    match lSubs.find? (fun f => f.name == rSubType.name) with
    | none => .ok st
    | some lSubType =>
      match st.1.fields with
      | none => .error (.typeError "Cannot read property indexOf of undefined")
      | some fs =>
        let index := jsIndexOf fs lSubType
        let lType' := st.1.setColl subTypeName (jsSplice lSubs index 1 [])
        .ok (lType', deleteResolverEntry st.2 resAddr st.1.name lSubType.name)

/-- `pareTypeAndSubType(subTypeName, lType, rType, resolvers)`: remove from
`lType` every sub-node matched by name in `rType`'s collection, deleting the
matching resolver-map entries.  Iterating `rType[subTypeName]` when the
property is absent throws (`for..of` over `undefined`). -/
def pareTypeAndSubType (subTypeName : String) (lType rType : TypeDef)
    (resAddr : Nat) (h : Heap) : Except JSError (TypeDef × Heap) :=
  match rType.getColl subTypeName with
  | none => .error (.typeError "rType sub-collection is not iterable")
  | some rSubs => exFold (pareStep subTypeName resAddr) (lType, h) rSubs

/-! ## Merge engine (`mergeSDL`) -/

/-- The body of `mergeSDL`'s loop for one right-hand definition.  The
switch dispatches on the *left* node's kind; `default:` falls through into
the object/interface/input branch, so every kind not explicitly cased
(including `'ScalarTypeDefinition'`, since the scalar case tests the
never-produced kind string `'ScalarTypeDefinitionNode'`) is treated as
struct-like.  `lookL`/`lookR` model `this.schema` / `source.schema` followed
by `getType(name)._scalarConfig`: they return the side's scalar config by
name, or `none` when no registry is buildable or no config exists. -/
def mergeOne (cr : ConflictResolvers) (lookL lookR : String → Option Nat)
    (st : Document × List (String × Nat)) (rType0 : TypeDef) :
    Except JSError (Document × List (String × Nat)) :=
  let lDefs := st.1
  let sFns := st.2
  let rType := normalizeExtensionNode rType0
  match lDefs.find? (fun a => a.name == rType0.name) with
  | none => .ok (lDefs ++ [rType], sFns)
  | some lType =>
    if lType.kind == "EnumTypeDefinition" then
      match combineTypeAndSubType "directives" lType rType cr with
      | .error e => .error e
      | .ok l1 =>
        match combineTypeAndSubType "values" l1 rType cr with
        | .error e => .error e
        | .ok l2 => .ok (replaceNode lDefs lType l2, sFns)
    else if lType.kind == "UnionTypeDefinition" then
      match combineTypeAndSubType "directives" lType rType cr with
      | .error e => .error e
      | .ok l1 =>
        match combineTypeAndSubType "types" l1 rType cr with
        | .error e => .error e
        | .ok l2 => .ok (replaceNode lDefs lType l2, sFns)
    else if lType.kind == "ScalarTypeDefinitionNode" then
      -- dead in practice: a parsed scalar's kind is 'ScalarTypeDefinition'
      match combineTypeAndSubType "directives" lType rType cr with
      | .error e => .error e
      | .ok l1 =>
        let cfg := cr.scalarMergeResolver lType (lookL lType.name) rType (lookR rType.name)
        let sFns' :=
          match cfg with
          | some c => (sFns.filter (fun e => e.1 != lType.name)) ++ [(lType.name, c)]
          | none => sFns
        .ok (replaceNode lDefs lType l1, sFns')
    else
      match combineTypeAndSubType "directives" lType rType cr with
      | .error e => .error e
      | .ok l1 =>
        match combineTypeAndSubType "fields" l1 rType cr with
        | .error e => .error e
        | .ok l2 => .ok (replaceNode lDefs lType l2, sFns)

/-- `mergeSDL(schemaLanguage, conflictResolvers)` at tree level, on the
freshly parsed left/right documents.

The first component is the state of the shared module-level
`DefaultConflictResolvers` object after the call: the source runs
`Object.assign(DefaultConflictResolvers, conflictResolvers)` and uses the
mutated defaults object as its registry, so passing a custom record rewrites
the defaults for every later caller.

The second component is the merge outcome: the merged document together with
the scalar-config attachments applied to it.  When the loop has recorded any
scalar config, the attach loop reads the undefined variable `_scalarConfig`
(the map is named `_scalarFns`), which throws a `ReferenceError`; hence an
`ok` result can only ever carry an empty attachment list. -/
def mergeSDL (lDefs rDefs : Document) (reg : ConflictResolvers)
    (custom : Option CustomResolvers) (lookL lookR : String → Option Nat) :
    ConflictResolvers × Except JSError (Document × List (String × Nat)) :=
  let cr :=
    match custom with
    | none => reg
    | some c => applyCustom reg c
  (cr,
    match exFold (mergeOne cr lookL lookR) (lDefs, []) rDefs with
    | .error e => .error e
    | .ok (doc, sFns) =>
      if sFns.isEmpty then .ok (doc, sFns)
      else .error (.referenceError "_scalarConfig is not defined"))

/-! ## Pare engine (`pareSDL`) -/

/-- The body of `pareSDL`'s loop for one right-hand definition.  Same
dispatch shape as the merge side, including the dead
`'ScalarTypeDefinitionNode'` case; after paring, an emptied `fields` /
`values` / `types` collection drops the container from the document. -/
def pareOne (resAddr : Nat) (st : Document × Heap) (rType0 : TypeDef) :
    Except JSError (Document × Heap) :=
  let lDefs := st.1
  let h := st.2
  let rType := normalizeExtensionNode rType0
  match lDefs.find? (fun a => a.name == rType0.name) with
  | none => .ok (lDefs ++ [rType], h)
  | some lType =>
    if lType.kind == "EnumTypeDefinition" then
      match pareTypeAndSubType "directives" lType rType resAddr h with
      | .error e => .error e
      | .ok (l1, h1) =>
        match pareTypeAndSubType "values" l1 rType resAddr h1 with
        | .error e => .error e
        | .ok (l2, h2) =>
          let lDefs' := replaceNode lDefs lType l2
          match l2.values with
          | none => .error (.typeError "Cannot read property length of undefined")
          | some vs => .ok (if vs.isEmpty then removeFirst lDefs' l2 else lDefs', h2)
    else if lType.kind == "UnionTypeDefinition" then
      match pareTypeAndSubType "directives" lType rType resAddr h with
      | .error e => .error e
      | .ok (l1, h1) =>
        match pareTypeAndSubType "types" l1 rType resAddr h1 with
        | .error e => .error e
        | .ok (l2, h2) =>
          let lDefs' := replaceNode lDefs lType l2
          match l2.types with
          | none => .error (.typeError "Cannot read property length of undefined")
          | some ts => .ok (if ts.isEmpty then removeFirst lDefs' l2 else lDefs', h2)
    else if lType.kind == "ScalarTypeDefinitionNode" then
      -- dead in practice: a parsed scalar's kind is 'ScalarTypeDefinition',
      -- so scalars actually fall through to the object branch below
      .ok (removeFirst lDefs lType, h)
    else
      match pareTypeAndSubType "directives" lType rType resAddr h with
      | .error e => .error e
      | .ok (l1, h1) =>
        match pareTypeAndSubType "fields" l1 rType resAddr h1 with
        | .error e => .error e
        | .ok (l2, h2) =>
          let lDefs' := replaceNode lDefs lType l2
          match l2.fields with
          | none => .error (.typeError "Cannot read property length of undefined")
          | some fs => .ok (if fs.isEmpty then removeFirst lDefs' l2 else lDefs', h2)

/-- `pareSDL(schemaLanguage, resolverMap)` at tree level.  The caller's
resolver map lives at `resolverMapAddr` in `h`; the engine first performs
`Object.assign({}, resolverMap)` — a shallow clone into a fresh cell whose
nested object references are shared with the caller — then walks the source
definitions.  Returns the pared document, the address of the (mutated)
clone, and the final heap. -/
def pareSDL (lDefs rDefs : Document) (resolverMapAddr : Nat) (h : Heap) :
    Except JSError (Document × Nat × Heap) :=
  let alloc := h.alloc (h.read resolverMapAddr)
  match exFold (pareOne alloc.2) (lDefs, alloc.1) rDefs with
  | .error e => .error e
  | .ok (doc, h2) => .ok (doc, alloc.2, h2)

/-! ## Source normalization (`normalizeSource`) and the input layer -/

/-- The value supplied for "a schema" on either side of merge/pare: raw SDL
text, a `Source` instance (`.body`), a `Schemata` instance (`.sdl`), or a
`GraphQLSchema` (printable to SDL).  `nullish` covers `null`/`undefined`. -/
inductive SDLInput where
  | nullish
  | str (s : String)
  | sourceObj (body : String)
  | schemataObj (sdl : String)
  | schemaObj (printed : String)
deriving DecidableEq, Repr

/-- JavaScript truthiness of the input value (`!typeDefs`): `null`,
`undefined` and the empty string are falsy; object instances are truthy. -/
def SDLInput.isFalsy : SDLInput → Bool
  | .nullish => true
  | .str s => s == ""
  | _ => false

/-- How the value renders inside the template literal of the error message. -/
def SDLInput.display : SDLInput → String
  | .nullish => "null"
  | .str s => s
  | .sourceObj _ => "[object Object]"
  | .schemataObj s => s
  | .schemaObj _ => "[object Object]"

/-- The message of the error `normalizeSource` throws for an invalid value:
it names the failing call and interpolates the received value. -/
def normalizeErrMsg (t : SDLInput) : String :=
  "normalizeSource(typeDefs): typeDefs was invalid when passed to the function normalizeSource. Please check your code and try again. (received: " ++ t.display ++ ")"

/-- `normalizeSource(typeDefs)` (the `wrap = false` result): throws on a
falsy input, otherwise produces the SDL text via
`typeDefs.body || typeDefs.sdl || (typeof typeDefs === 'string' && typeDefs)
|| (instanceof GraphQLSchema ? printSchema(typeDefs) : typeDefs.toString())`. -/
def normalizeSource (t : SDLInput) : Except JSError String :=
  if t.isFalsy then .error (.invalidInput (normalizeErrMsg t))
  else
    .ok (match t with
      | .nullish => ""
      | .str s => s
      | .sourceObj b => if b == "" then "[object Object]" else b
      | .schemataObj s => s
      | .schemaObj p => p)

/-- `mergeSDL` including its input layer: the right-hand source value is
normalized to text first (`normalizeSource(schemaLanguage, true)`, whose
`Schemata.from` constructor normalizes the produced text a second time);
`this.ast` / `source.ast` then parse both sides through the external
`graphql` collaborator, modelled by the `parseDoc` parameter (`Schemata.parse`
returns `null` on failure, and `null.definitions` then throws). -/
def mergeSDLFromInput (selfSdl : String) (input : SDLInput)
    (parseDoc : String → Option Document) (reg : ConflictResolvers)
    (custom : Option CustomResolvers) (lookL lookR : String → Option Nat) :
    Except JSError (ConflictResolvers × Document × List (String × Nat)) :=
  match normalizeSource input with
  | .error e => .error e
  | .ok txt =>
    match normalizeSource (.str txt) with
    | .error e => .error e
    | .ok txt2 =>
      match parseDoc selfSdl with
      | none => .error (.typeError "Cannot read property definitions of null")
      | some lAST =>
        match parseDoc txt2 with
        | none => .error (.typeError "Cannot read property definitions of null")
        | some rAST =>
          let res := mergeSDL lAST rAST reg custom lookL lookR
          match res.2 with
          | .error e => .error e
          | .ok (doc, att) => .ok (res.1, doc, att)

/-- `pareSDL` including its input layer, analogous to `mergeSDLFromInput`. -/
def pareSDLFromInput (selfSdl : String) (input : SDLInput)
    (parseDoc : String → Option Document) (resolverMapAddr : Nat) (h : Heap) :
    Except JSError (Document × Nat × Heap) :=
  match normalizeSource input with
  | .error e => .error e
  | .ok txt =>
    match normalizeSource (.str txt) with
    | .error e => .error e
    | .ok txt2 =>
      match parseDoc selfSdl with
      | none => .error (.typeError "Cannot read property definitions of null")
      | some lAST =>
        match parseDoc txt2 with
        | none => .error (.typeError "Cannot read property definitions of null")
        | some rAST => pareSDL lAST rAST resolverMapAddr h

/-- The `Schemata` constructor's own normalization of its `typeDefs`
argument (`super(normalizeSource(typeDefs))`): constructing the left-hand
side from an invalid value throws the same error. -/
def schemataNew (t : SDLInput) : Except JSError String :=
  normalizeSource t

/-! ## Parsed-node constructors (shapes the parser produces) -/

/-- A parsed field definition. -/
def fieldDef (n ty : String) : SubNode := ⟨"FieldDefinition", n, ty⟩

/-- A parsed directive usage. -/
def directiveNode (n args : String) : SubNode := ⟨"Directive", n, args⟩

/-- A parsed enum value. -/
def enumValue (n : String) : SubNode := ⟨"EnumValueDefinition", n, ""⟩

/-- A parsed union member reference. -/
def namedTypeRef (n : String) : SubNode := ⟨"NamedType", n, ""⟩

/-- A parsed object type definition. -/
def objectType (n : String) (ds fs : List SubNode) : TypeDef :=
  ⟨"ObjectTypeDefinition", n, some ds, some fs, none, none⟩

/-- A parsed enum type definition. -/
def enumType (n : String) (ds vs : List SubNode) : TypeDef :=
  ⟨"EnumTypeDefinition", n, some ds, none, some vs, none⟩

/-- A parsed union type definition. -/
def unionType (n : String) (ds ts : List SubNode) : TypeDef :=
  ⟨"UnionTypeDefinition", n, some ds, none, none, some ts⟩

/-- A parsed scalar type definition. -/
def scalarType (n : String) (ds : List SubNode) : TypeDef :=
  ⟨"ScalarTypeDefinition", n, some ds, none, none, none⟩

/-- A parsed object type extension (`extend type ...`). -/
def objectTypeExt (n : String) (ds fs : List SubNode) : TypeDef :=
  ⟨"ObjectTypeExtension", n, some ds, some fs, none, none⟩

/-! ## Observations on documents and resolver maps -/

/-- Whether some type of the document still declares a field of this name. -/
def docHasFieldNamed (doc : Document) (f : String) : Bool :=
  doc.any (fun t => (t.fields.getD []).any (fun s => s.name == f))

/-- The names of the leaves of a resolver map: top-level entries holding a
resolver function name a field directly (flattened form); entries holding a
nested object contribute that object's keys (nested form). -/
def resolverLeaves (h : Heap) (a : Nat) : List String :=
  (h.read a).foldr
    (fun e acc =>
      match e.2 with
      | RVal.fn _ => e.1 :: acc
      | RVal.ref c => (h.read c).map (fun q => q.1) ++ acc) []

/-! ## Concrete documents for the claim scenarios -/

/-- Parse of `type Query { hello: String } type Foo { a: Int }`. -/
def docA : Document :=
  [objectType "Query" [] [fieldDef "hello" "String"],
   objectType "Foo" [] [fieldDef "a" "Int"]]

/-- Parse of `type Query { world: String } type Foo { a: Int b: Int }`. -/
def docB : Document :=
  [objectType "Query" [] [fieldDef "world" "String"],
   objectType "Foo" [] [fieldDef "a" "Int", fieldDef "b" "Int"]]

/-- The merged document `merge(A, B)`. -/
def docAB : Document :=
  [objectType "Query" [] [fieldDef "hello" "String", fieldDef "world" "String"],
   objectType "Foo" [] [fieldDef "a" "Int", fieldDef "b" "Int"]]

/-- The pared document `pare(merge(A, B), B)`. -/
def docABminusB : Document :=
  [objectType "Query" [] [fieldDef "hello" "String"]]

/-- Scalar-config lookup for a side with no buildable schema registry. -/
def noRegistry : String → Option Nat := fun _ => none

/-- The kind strings the `graphql` parser can put on a top-level definition
node (definition and extension variants, plus schema/directive
definitions). -/
def knownKinds : List String :=
  ["ObjectTypeDefinition", "InterfaceTypeDefinition", "InputObjectTypeDefinition",
   "EnumTypeDefinition", "UnionTypeDefinition", "ScalarTypeDefinition",
   "SchemaDefinition", "DirectiveDefinition",
   "ObjectTypeExtension", "InterfaceTypeExtension", "InputObjectTypeExtension",
   "EnumTypeExtension", "UnionTypeExtension", "ScalarTypeExtension"]

/-- Left document of the C2 failing input: `type Foo @d1(L) @d2 { x: Int }`. -/
def dirDocL : Document :=
  [⟨"ObjectTypeDefinition", "Foo",
    some [directiveNode "d1" "L", directiveNode "d2" ""],
    some [fieldDef "x" "Int"], none, none⟩]

/-- Right document of the C2 failing input: `type Foo @d1(R)`. -/
def dirDocR : Document :=
  [⟨"ObjectTypeDefinition", "Foo",
    some [directiveNode "d1" "R"], some [], none, none⟩]

/-- A registry whose scalar resolver always produces a config, to witness an
invocation if one ever happened. -/
def sentinelRegistry : ConflictResolvers :=
  { DefaultConflictResolvers with scalarMergeResolver := fun _ _ _ _ => some 99 }

/-- A caller-supplied registry overriding only the field handler. -/
def customFieldOnly (f : SubResolver) : CustomResolvers :=
  { fieldMergeResolver := some f }

/-- Left document of the later collision: `type T { x: Int }`. -/
def colDocL : Document := [objectType "T" [] [fieldDef "x" "Int"]]

/-- Right document of the later collision: `type T { x: String }`. -/
def colDocR : Document := [objectType "T" [] [fieldDef "x" "String"]]

/-- Caller's resolver map for the C5 counterexample: the mixed map
`\x7b Foo: \x7b a: fn 7 \x7d, a: fn 2 \x7d` — field `a` of `Foo` is tracked both under
the nested entry (cell 1) and under a flattened top-level entry. -/
def mixedHeap : Heap := ⟨[[("Foo", RVal.ref 1), ("a", RVal.fn 2)], [("a", RVal.fn 7)]]⟩

/-- The heap after paring `Foo.a`: the nested entry was deleted, the
flattened leaf `a` survives. -/
def mixedHeapAfter : Heap :=
  ⟨[[("Foo", RVal.ref 1), ("a", RVal.fn 2)], [],
    [("Foo", RVal.ref 1), ("a", RVal.fn 2)]]⟩

/-- Caller's resolver map for the C6 counterexample: the nested map
`\x7b Foo: \x7b a: fn 7 \x7d \x7d` with the inner object in cell 1. -/
def nestedHeap : Heap := ⟨[[("Foo", RVal.ref 1)], [("a", RVal.fn 7)]]⟩

/-- The heap after the pare: cell 1 — shared between the caller's map and
the shallow clone — lost its entry. -/
def nestedHeapAfter : Heap := ⟨[[("Foo", RVal.ref 1)], [], [("Foo", RVal.ref 1)]]⟩

/-! ## Heap evolution predicates -/

/-- `h'` is reachable from `h` by property deletions only: every property of
every cell is either gone or unchanged. -/
def heapStep (h h' : Heap) : Prop :=
  ∀ x k, ((h'.read x).get k = none) ∨ ((h'.read x).get k = (h.read x).get k)

/-- The resolver map at `a` has no nested entry tracking field `f` under the
type name `T`. -/
def NoNestedTrack (h : Heap) (a : Nat) (T f : String) : Prop :=
  ∀ c, (h.read a).get T = some (RVal.ref c) → (h.read c).get f = none

/-- What the synchronizer guarantees after deleting the entry for field `f`
of type `T` from the map at `a`: no nested entry tracks the field any more,
and when the map had no entry for `T` at clone time (`h0`), the flattened
top-level entry for `f` is gone as well. -/
def DeletePost (h0 : Heap) (a : Nat) (T f : String) (h : Heap) : Prop :=
  NoNestedTrack h a T f ∧ ((h0.read a).get T = none → (h.read a).get f = none)

/-! # Claim theorems -/

/-- C1: for `A = type Query .. hello .. type Foo .. a ..` and
`B = type Query .. world .. type Foo .. a b ..`, `merge(A, B)` yields a
document whose `Query` has exactly the fields `hello` and `world` and whose
`Foo` has exactly `a` and `b`; `pare(merge(A,B), B)` yields a document whose
`Query` has exactly `hello` and which contains no top-level definition named
`Foo`. -/
theorem merge_pare_end_to_end :
    (mergeSDL docA docB DefaultConflictResolvers none noRegistry noRegistry).2
      = .ok (docAB, [])
    ∧ pareSDL docAB docB 0 ⟨[[]]⟩ = .ok (docABminusB, 1, ⟨[[], []]⟩)
    ∧ (docAB.find? (fun t => t.name == "Query")).map TypeDef.fields
      = some (some [fieldDef "hello" "String", fieldDef "world" "String"])
    ∧ (docAB.find? (fun t => t.name == "Foo")).map TypeDef.fields
      = some (some [fieldDef "a" "Int", fieldDef "b" "Int"])
    ∧ (docABminusB.find? (fun t => t.name == "Query")).map TypeDef.fields
      = some (some [fieldDef "hello" "String"])
    ∧ docABminusB.all (fun t => t.name != "Foo") = true :=
  ⟨rfl, rfl, rfl, rfl, rfl, rfl⟩



/-- C2 (failing-input evaluation): the splice index is taken from
`lType.fields` whatever collection is merged, so a directive collision on an
object type splices the resolver's result over the *last* directive (`d2` is
destroyed, the matched `d1(L)` survives) instead of replacing the matched
sub-node at its position; and a same-named enum-value collision throws a
`TypeError` because an enum node has no `fields` property at all. -/
theorem merge_replaces_wrong_subnode :
    (mergeSDL dirDocL dirDocR DefaultConflictResolvers none noRegistry noRegistry).2
      = .ok ([⟨"ObjectTypeDefinition", "Foo",
               some [directiveNode "d1" "L", directiveNode "d1" "R"],
               some [fieldDef "x" "Int"], none, none⟩], [])
    ∧ (mergeSDL [enumType "E" [] [enumValue "A"]] [enumType "E" [] [enumValue "A"]]
         DefaultConflictResolvers none noRegistry noRegistry).2
      = .error (.typeError "Cannot read property indexOf of undefined") :=
  ⟨rfl, rfl⟩

/-- C3 (failing-input evaluation): paring the last enum value — which the
spec says removes the emptied enum — instead throws a `TypeError` (the
removal index is read from the absent `fields` property of the enum node);
unions fail the same way.  The object-type third of the claim does hold:
paring the only remaining field of `Foo` removes `Foo` entirely. -/
theorem pare_enum_value_throws :
    pareSDL [enumType "E" [] [enumValue "A"]] [enumType "E" [] [enumValue "A"]] 0 ⟨[[]]⟩
      = .error (.typeError "Cannot read property indexOf of undefined")
    ∧ pareSDL [unionType "U" [] [namedTypeRef "X"]] [unionType "U" [] [namedTypeRef "X"]] 0 ⟨[[]]⟩
      = .error (.typeError "Cannot read property indexOf of undefined")
    ∧ pareSDL [objectType "Foo" [] [fieldDef "a" "Int"]]
        [objectType "Foo" [] [fieldDef "a" "Int"]] 0 ⟨[[]]⟩
      = .ok ([], 1, ⟨[[], []]⟩) :=
  ⟨rfl, rfl, rfl⟩



/-- C4 (failing-input evaluation): merging two documents that both define
`scalar Foo`, with buildable registries and configs on both sides and a
scalar resolver that always yields a config, still attaches nothing: the
scalar case tests the kind string `ScalarTypeDefinitionNode`, which no
parsed node carries, so the branch is unreachable, the configs are never
fetched and the resolver is never invoked. -/
theorem scalar_merge_branch_never_runs :
    (mergeSDL [scalarType "Foo" []] [scalarType "Foo" []] sentinelRegistry none
        (fun _ => some 7) (fun _ => some 8)).2
      = .ok ([scalarType "Foo" []], [])
    ∧ (scalarType "Foo" []).kind ≠ "ScalarTypeDefinitionNode" :=
  ⟨rfl, by decide⟩

/-- C9: merging any document with the empty document is an identity — the
loop never runs, the left tree is returned unchanged, nothing is attached
and the registry is untouched. -/
theorem merge_with_empty_document_is_identity (lDefs : Document)
    (reg : ConflictResolvers) (lookL lookR : String → Option Nat) :
    mergeSDL lDefs [] reg none lookL lookR = (reg, .ok (lDefs, [])) :=
  rfl





/-- C10: `mergeSDL` makes the shared `DefaultConflictResolvers` object the
target of `Object.assign`, so a merge supplying a custom field resolver `f`
leaves the module-level registry with `f` installed, and a later merge on
any instance that supplies no resolvers resolves its field collisions with
`f` instead of the documented default. -/
theorem merge_custom_resolvers_rewrite_defaults (f : SubResolver)
    (reg : ConflictResolvers) (l r : Document) (lookL lookR : String → Option Nat) :
    (mergeSDL l r reg (some (customFieldOnly f)) lookL lookR).1
        = applyCustom reg (customFieldOnly f)
    ∧ (applyCustom reg (customFieldOnly f)).fieldMergeResolver = f
    ∧ (mergeSDL colDocL colDocR
          ((mergeSDL l r reg (some (customFieldOnly f)) lookL lookR).1)
          none noRegistry noRegistry).2
        = .ok ([objectType "T" []
                 [f (objectType "T" [] [fieldDef "x" "Int"]) (fieldDef "x" "Int")
                    (objectType "T" [] [fieldDef "x" "String"]) (fieldDef "x" "String")]], []) :=
  ⟨rfl, rfl, rfl⟩



theorem normKindStr_idem (k : String) (hk : k ∈ knownKinds) :
    normKindStr (normKindStr k) = normKindStr k := by
  fin_cases hk <;> decide

theorem normExt_name (d : TypeDef) : (normalizeExtensionNode d).name = d.name := rfl

theorem normalizeExtensionNode_idem (d : TypeDef) (hd : d.kind ∈ knownKinds) :
    normalizeExtensionNode (normalizeExtensionNode d) = normalizeExtensionNode d := by
  unfold normalizeExtensionNode
  rw [normKindStr_idem d.kind hd]

theorem mergeOne_normalized (cr : ConflictResolvers) (lookL lookR : String → Option Nat)
    (st : Document × List (String × Nat)) (d : TypeDef) (hd : d.kind ∈ knownKinds) :
    mergeOne cr lookL lookR st (normalizeExtensionNode d) = mergeOne cr lookL lookR st d := by
  unfold mergeOne
  rw [normalizeExtensionNode_idem d hd, normExt_name]

theorem pareOne_normalized (resAddr : Nat) (st : Document × Heap) (d : TypeDef)
    (hd : d.kind ∈ knownKinds) :
    pareOne resAddr st (normalizeExtensionNode d) = pareOne resAddr st d := by
  unfold pareOne
  rw [normalizeExtensionNode_idem d hd, normExt_name]

theorem exFold_merge_map_normalized (cr : ConflictResolvers)
    (lookL lookR : String → Option Nat) (rDefs : Document)
    (hks : ∀ d ∈ rDefs, d.kind ∈ knownKinds) :
    ∀ st, exFold (mergeOne cr lookL lookR) st (rDefs.map normalizeExtensionNode)
        = exFold (mergeOne cr lookL lookR) st rDefs := by
  induction rDefs with
  | nil => intro st; rfl
  | cons d ds ih =>
    intro st
    simp only [List.map_cons, exFold]
    rw [mergeOne_normalized cr lookL lookR st d (hks d (List.mem_cons_self d ds))]
    cases mergeOne cr lookL lookR st d with
    | error e => rfl
    | ok s' => exact ih (fun x hx => hks x (List.mem_cons_of_mem d hx)) s'

theorem exFold_pare_map_normalized (resAddr : Nat) (rDefs : Document)
    (hks : ∀ d ∈ rDefs, d.kind ∈ knownKinds) :
    ∀ st, exFold (pareOne resAddr) st (rDefs.map normalizeExtensionNode)
        = exFold (pareOne resAddr) st rDefs := by
  induction rDefs with
  | nil => intro st; rfl
  | cons d ds ih =>
    intro st
    simp only [List.map_cons, exFold]
    rw [pareOne_normalized resAddr st d (hks d (List.mem_cons_self d ds))]
    cases pareOne resAddr st d with
    | error e => rfl
    | ok s' => exact ih (fun x hx => hks x (List.mem_cons_of_mem d hx)) s'

/-- C7: a source-side node whose kind ends in `Extension` is normalized to a
shallow copy whose kind is the suffix-stripped `Definition` equivalent with
every other property unchanged, non-extension nodes pass through unchanged;
consequently replacing every source node by its normalized base form changes
neither a merge nor a pare — an extension node named `Foo` merges (or pares)
exactly as the same-named base definition would. -/
theorem extension_nodes_merge_as_base (r : TypeDef) (lDefs rDefs : Document)
    (reg : ConflictResolvers) (lookL lookR : String → Option Nat)
    (resolverMapAddr : Nat) (h : Heap) :
    (("Extension".data.isSuffixOf r.kind.data) = true →
        normalizeExtensionNode r
          = { r with kind := ⟨r.kind.data.take (r.kind.data.length - 9)⟩ ++ "Definition" })
    ∧ (("Extension".data.isSuffixOf r.kind.data) = false → normalizeExtensionNode r = r)
    ∧ ((∀ d ∈ rDefs, d.kind ∈ knownKinds) →
        mergeSDL lDefs (rDefs.map normalizeExtensionNode) reg none lookL lookR
          = mergeSDL lDefs rDefs reg none lookL lookR
        ∧ pareSDL lDefs (rDefs.map normalizeExtensionNode) resolverMapAddr h
          = pareSDL lDefs rDefs resolverMapAddr h) := by
  refine ⟨?_, ?_, ?_⟩
  · intro hx
    unfold normalizeExtensionNode normKindStr
    rw [hx]
    simp
  · intro hx
    unfold normalizeExtensionNode normKindStr
    rw [hx]
    simp
  · intro hks
    constructor
    · unfold mergeSDL
      simp only [exFold_merge_map_normalized reg lookL lookR rDefs hks]
    · unfold pareSDL
      simp only [exFold_pare_map_normalized _ rDefs hks]

/-- Witness for C7 at a concrete extension node: `extend type Foo { b: Int }`
normalizes to the base `ObjectTypeDefinition` form, and merging or paring
with the extension equals merging or paring with its normalized base form. -/
theorem extension_nodes_merge_as_base_witness :
    normalizeExtensionNode (objectTypeExt "Foo" [] [fieldDef "b" "Int"])
      = { objectTypeExt "Foo" [] [fieldDef "b" "Int"] with
          kind := ⟨(objectTypeExt "Foo" [] [fieldDef "b" "Int"]).kind.data.take
                     ((objectTypeExt "Foo" [] [fieldDef "b" "Int"]).kind.data.length - 9)⟩
                    ++ "Definition" }
    ∧ mergeSDL [objectType "Foo" [] [fieldDef "a" "Int"]]
          ([objectTypeExt "Foo" [] [fieldDef "b" "Int"]].map normalizeExtensionNode)
          DefaultConflictResolvers none noRegistry noRegistry
        = mergeSDL [objectType "Foo" [] [fieldDef "a" "Int"]]
            [objectTypeExt "Foo" [] [fieldDef "b" "Int"]]
            DefaultConflictResolvers none noRegistry noRegistry :=
  ⟨(extension_nodes_merge_as_base (objectTypeExt "Foo" [] [fieldDef "b" "Int"])
      [objectType "Foo" [] [fieldDef "a" "Int"]] [objectTypeExt "Foo" [] [fieldDef "b" "Int"]]
      DefaultConflictResolvers noRegistry noRegistry 0 ⟨[]⟩).1 (by decide),
   ((extension_nodes_merge_as_base (objectTypeExt "Foo" [] [fieldDef "b" "Int"])
      [objectType "Foo" [] [fieldDef "a" "Int"]] [objectTypeExt "Foo" [] [fieldDef "b" "Int"]]
      DefaultConflictResolvers noRegistry noRegistry 0 ⟨[]⟩).2.2 (by decide)).1⟩

/-- C8: a merge or pare whose source value cannot be normalized to text
fails immediately with the single descriptive `normalizeSource` error naming
the failing call and the received value; no partial result is produced and
nothing downstream runs, and constructing the left-hand `Schemata` instance
from such a value throws the same error. -/
theorem invalid_source_fails_fast (selfSdl : String) (input : SDLInput)
    (parseDoc : String → Option Document) (reg : ConflictResolvers)
    (custom : Option CustomResolvers) (lookL lookR : String → Option Nat)
    (resolverMapAddr : Nat) (h : Heap) (hbad : input.isFalsy = true) :
    mergeSDLFromInput selfSdl input parseDoc reg custom lookL lookR
        = .error (.invalidInput (normalizeErrMsg input))
    ∧ pareSDLFromInput selfSdl input parseDoc resolverMapAddr h
        = .error (.invalidInput (normalizeErrMsg input))
    ∧ schemataNew input = .error (.invalidInput (normalizeErrMsg input)) := by
  have hn : normalizeSource input = .error (.invalidInput (normalizeErrMsg input)) := by
    unfold normalizeSource
    rw [hbad]
    rfl
  refine ⟨?_, ?_, hn⟩
  · unfold mergeSDLFromInput
    rw [hn]
  · unfold pareSDLFromInput
    rw [hn]

/-- Witness for C8 at the concrete invalid value `null`. -/
theorem invalid_source_fails_fast_witness :
    SDLInput.nullish.isFalsy = true
    ∧ (mergeSDLFromInput "" SDLInput.nullish (fun _ => none) DefaultConflictResolvers none
          (fun _ => none) (fun _ => none)
        = .error (.invalidInput (normalizeErrMsg SDLInput.nullish))
      ∧ pareSDLFromInput "" SDLInput.nullish (fun _ => none) 0 ⟨[]⟩
        = .error (.invalidInput (normalizeErrMsg SDLInput.nullish))
      ∧ schemataNew SDLInput.nullish
        = .error (.invalidInput (normalizeErrMsg SDLInput.nullish))) :=
  ⟨rfl, invalid_source_fails_fast "" SDLInput.nullish (fun _ => none)
     DefaultConflictResolvers none (fun _ => none) (fun _ => none) 0 ⟨[]⟩ rfl⟩



/-- C5 counterexample: paring the only field `a` of `Foo` with the mixed
resolver map deletes only the nested entry; the resulting map still has the
leaf `a` while the resulting document (now empty — `Foo` was dropped)
declares no field `a`, so not every leaf of the resulting map names a field
still present in the document. -/
theorem pare_leaves_orphan_resolver_leaf :
    pareSDL [objectType "Foo" [] [fieldDef "a" "Int"]]
        [objectType "Foo" [] [fieldDef "a" "Int"]] 0 mixedHeap
      = .ok ([], 2, mixedHeapAfter)
    ∧ resolverLeaves mixedHeapAfter 2 = ["a"]
    ∧ docHasFieldNamed [] "a" = false :=
  ⟨rfl, rfl, rfl⟩



/-- C6 counterexample: `pareSDL` clones the supplied resolver map only
shallowly, so deleting the nested entry for the pared field `Foo.a` mutates
the inner object the caller's map still references: after the call the
caller's own map no longer contains `Foo.a`. -/
theorem pare_mutates_callers_nested_map :
    pareSDL [objectType "Foo" [] [fieldDef "a" "Int"]]
        [objectType "Foo" [] [fieldDef "a" "Int"]] 0 nestedHeap
      = .ok ([], 2, nestedHeapAfter)
    ∧ (nestedHeap.read 0).get "Foo" = some (RVal.ref 1)
    ∧ (nestedHeap.read 1).get "a" = some (RVal.fn 7)
    ∧ (nestedHeapAfter.read 1).get "a" = none :=
  ⟨rfl, rfl, rfl, rfl⟩

/-! ## Object and heap lemmas -/

theorem Obj.get_del_self (o : Obj) (k : String) : (o.del k).get k = none := by
  induction o with
  | nil => rfl
  | cons e t ih =>
    by_cases he : e.1 = k
    · have h1 : Obj.del (e :: t) k = Obj.del t k := by
        simp [Obj.del, List.filter_cons, he]
      rw [h1]; exact ih
    · have h1 : Obj.del (e :: t) k = e :: Obj.del t k := by
        simp [Obj.del, List.filter_cons, he]
      have h2 : (e.1 == k) = false := beq_eq_false_iff_ne.mpr he
      rw [h1]
      show ((e :: Obj.del t k).find? (fun e => e.1 == k)).map (fun e => e.2) = none
      rw [List.find?_cons_of_neg _ (by simp [h2])]
      exact ih

theorem Obj.get_del_ne (o : Obj) (k q : String) (hne : k ≠ q) :
    (o.del q).get k = o.get k := by
  induction o with
  | nil => rfl
  | cons e t ih =>
    by_cases he : e.1 = q
    · have h1 : Obj.del (e :: t) q = Obj.del t q := by
        simp [Obj.del, List.filter_cons, he]
      have h2 : (e.1 == k) = false :=
        beq_eq_false_iff_ne.mpr (by rw [he]; exact fun hx => hne hx.symm)
      rw [h1]
      show (Obj.del t q).get k = ((e :: t).find? (fun e => e.1 == k)).map (fun e => e.2)
      rw [List.find?_cons_of_neg _ (by simp [h2])]
      exact ih
    · have h1 : Obj.del (e :: t) q = e :: Obj.del t q := by
        simp [Obj.del, List.filter_cons, he]
      rw [h1]
      by_cases hek : e.1 = k
      · have h2 : (e.1 == k) = true := beq_iff_eq.mpr hek
        show ((e :: Obj.del t q).find? (fun e => e.1 == k)).map (fun e => e.2)
           = ((e :: t).find? (fun e => e.1 == k)).map (fun e => e.2)
        rw [@List.find?_cons_of_pos _ (fun e => e.1 == k) e (Obj.del t q) h2,
            @List.find?_cons_of_pos _ (fun e => e.1 == k) e t h2]
      · have h2 : (e.1 == k) = false := beq_eq_false_iff_ne.mpr hek
        show ((e :: Obj.del t q).find? (fun e => e.1 == k)).map (fun e => e.2)
           = ((e :: t).find? (fun e => e.1 == k)).map (fun e => e.2)
        rw [List.find?_cons_of_neg _ (by simp [h2]), List.find?_cons_of_neg _ (by simp [h2])]
        exact ih

theorem Heap.read_write_ne (h : Heap) (c a : Nat) (o : Obj) (hne : c ≠ a) :
    (h.write c o).read a = h.read a := by
  simp [Heap.write, Heap.read, List.getD_eq_getElem?_getD, List.getElem?_set_ne hne]

theorem Heap.read_write_lt (h : Heap) (c : Nat) (o : Obj) (hc : c < h.cells.length) :
    (h.write c o).read c = o := by
  simp [Heap.write, Heap.read, List.getD_eq_getElem?_getD, List.getElem?_set_self, hc]

theorem Heap.write_oob (h : Heap) (c : Nat) (o : Obj) (hc : h.cells.length ≤ c) :
    h.write c o = h := by
  simp [Heap.write, List.set_eq_of_length_le hc]

theorem Heap.read_oob (h : Heap) (c : Nat) (hc : h.cells.length ≤ c) : h.read c = [] := by
  simp [Heap.read, List.getD_eq_getElem?_getD, List.getElem?_eq_none hc]

theorem Heap.read_lt_of_get_isSome (h : Heap) (c : Nat) (k : String)
    (hs : ((h.read c).get k).isSome = true) : c < h.cells.length := by
  by_contra hc
  rw [Heap.read_oob h c (by omega)] at hs
  simp [Obj.get] at hs

theorem heapStep_refl (h : Heap) : heapStep h h := fun _ _ => Or.inr rfl

theorem heapStep_trans {h1 h2 h3 : Heap} (a : heapStep h1 h2) (b : heapStep h2 h3) :
    heapStep h1 h3 := by
  intro x k
  rcases b x k with hb | hb
  · exact Or.inl hb
  · rcases a x k with ha | ha
    · exact Or.inl (hb.trans ha)
    · exact Or.inr (hb.trans ha)

theorem heapStep_none {h h' : Heap} {x : Nat} {k : String} (hs : heapStep h h')
    (hn : (h.read x).get k = none) : (h'.read x).get k = none := by
  rcases hs x k with h1 | h1
  · exact h1
  · rw [h1, hn]

theorem heapStep_some {h h' : Heap} {x : Nat} {k : String} {v : RVal} (hs : heapStep h h')
    (hv : (h'.read x).get k = some v) : (h.read x).get k = some v := by
  rcases hs x k with h1 | h1
  · rw [hv] at h1; cases h1
  · rw [← h1]; exact hv

theorem heapStep_write_del (h : Heap) (c : Nat) (k : String) :
    heapStep h (h.write c ((h.read c).del k)) := by
  intro x q
  by_cases hx : c = x
  · subst hx
    by_cases hlt : c < h.cells.length
    · rw [Heap.read_write_lt h c _ hlt]
      by_cases hq : q = k
      · subst hq; exact Or.inl (Obj.get_del_self _ _)
      · exact Or.inr (Obj.get_del_ne _ _ _ hq)
    · rw [Heap.write_oob h c _ (by omega)]
      exact Or.inr rfl
  · rw [Heap.read_write_ne h c x _ hx]
    exact Or.inr rfl

/-- The three possible outcomes of `deleteResolverEntry`: unchanged (and
then nothing tracked `(T, f)` and the flattened entry was already absent),
nested deletion inside the referenced cell, or flattened top-level
deletion. -/
theorem deleteResolverEntry_cases (h : Heap) (a : Nat) (T f : String) :
    (deleteResolverEntry h a T f = h
      ∧ NoNestedTrack h a T f
      ∧ (h.read a).get f = none)
    ∨ (∃ c, (h.read a).get T = some (RVal.ref c)
        ∧ ((h.read c).get f).isSome = true
        ∧ deleteResolverEntry h a T f = h.write c ((h.read c).del f))
    ∨ (((h.read a).get f).isSome = true
        ∧ (∀ c, (h.read a).get T = some (RVal.ref c) → (h.read c).get f = none)
        ∧ deleteResolverEntry h a T f = h.write a ((h.read a).del f)) := by
  unfold NoNestedTrack
  cases hT : (h.read a).get T with
  | none =>
    by_cases htop : ((h.read a).get f).isSome = true
    · refine Or.inr (Or.inr ⟨htop, ?_, ?_⟩)
      · intro c hc; simp at hc
      · simp [deleteResolverEntry, hT, htop]
    · have hnone : (h.read a).get f = none := by
        cases hv : (h.read a).get f
        · rfl
        · rw [hv] at htop; simp at htop
      refine Or.inl ⟨?_, ?_, hnone⟩
      · simp [deleteResolverEntry, hT, htop]
      · intro c hc; simp at hc
  | some v =>
    cases v with
    | fn id =>
      by_cases htop : ((h.read a).get f).isSome = true
      · refine Or.inr (Or.inr ⟨htop, ?_, ?_⟩)
        · intro c hc; simp at hc
        · simp [deleteResolverEntry, hT, htop]
      · have hnone : (h.read a).get f = none := by
          cases hv : (h.read a).get f
          · rfl
          · rw [hv] at htop; simp at htop
        refine Or.inl ⟨?_, ?_, hnone⟩
        · simp [deleteResolverEntry, hT, htop]
        · intro c hc; simp at hc
    | ref c =>
      by_cases hcell : ((h.read c).get f).isSome = true
      · refine Or.inr (Or.inl ⟨c, rfl, hcell, ?_⟩)
        simp [deleteResolverEntry, hT, hcell]
      · have hcnone : (h.read c).get f = none := by
          cases hv : (h.read c).get f
          · rfl
          · rw [hv] at hcell; simp at hcell
        by_cases htop : ((h.read a).get f).isSome = true
        · refine Or.inr (Or.inr ⟨htop, ?_, ?_⟩)
          · intro c2 hc2
            simp only [Option.some.injEq, RVal.ref.injEq] at hc2
            rw [← hc2]
            exact hcnone
          · simp [deleteResolverEntry, hT, hcell, htop]
        · have hnone : (h.read a).get f = none := by
            cases hv : (h.read a).get f
            · rfl
            · rw [hv] at htop; simp at htop
          refine Or.inl ⟨?_, ?_, hnone⟩
          · simp [deleteResolverEntry, hT, hcell, htop]
          · intro c2 hc2
            simp only [Option.some.injEq, RVal.ref.injEq] at hc2
            rw [← hc2]
            exact hcnone

theorem heapStep_deleteResolverEntry (h : Heap) (a : Nat) (T f : String) :
    heapStep h (deleteResolverEntry h a T f) := by
  rcases deleteResolverEntry_cases h a T f with ⟨heq, _, _⟩ | ⟨c, _, _, heq⟩ | ⟨_, _, heq⟩
  · rw [heq]; exact heapStep_refl h
  · rw [heq]; exact heapStep_write_del h c f
  · rw [heq]; exact heapStep_write_del h a f

theorem deleteResolverEntry_establishes (h : Heap) (a : Nat) (T f : String) :
    NoNestedTrack (deleteResolverEntry h a T f) a T f := by
  rcases deleteResolverEntry_cases h a T f with ⟨heq, hno, _⟩ | ⟨c, hT, hf, heq⟩ | ⟨htop, hno, heq⟩
  · rw [heq]; exact hno
  · rw [heq]
    have hclen : c < h.cells.length := Heap.read_lt_of_get_isSome h c f hf
    intro c' hc'
    by_cases hac : a = c
    · subst hac
      rw [Heap.read_write_lt h a _ hclen] at hc'
      by_cases hTf : T = f
      · rw [hTf, Obj.get_del_self] at hc'; cases hc'
      · rw [Obj.get_del_ne _ _ _ hTf] at hc'
        rw [hT] at hc'
        cases hc'
        rw [Heap.read_write_lt h a _ hclen]
        exact Obj.get_del_self _ _
    · rw [Heap.read_write_ne h c a _ (fun hx => hac hx.symm)] at hc'
      rw [hT] at hc'
      cases hc'
      rw [Heap.read_write_lt h c _ hclen]
      exact Obj.get_del_self _ _
  · rw [heq]
    have halen : a < h.cells.length := Heap.read_lt_of_get_isSome h a f htop
    intro c' hc'
    rw [Heap.read_write_lt h a _ halen] at hc'
    by_cases hTf : T = f
    · rw [hTf, Obj.get_del_self] at hc'; cases hc'
    · rw [Obj.get_del_ne _ _ _ hTf] at hc'
      by_cases hca : c' = a
      · subst hca
        rw [Heap.read_write_lt h c' _ halen]
        exact Obj.get_del_self _ _
      · rw [Heap.read_write_ne h a c' _ (fun hx => hca hx.symm)]
        exact hno c' hc'

theorem deleteResolverEntry_flat (h : Heap) (a : Nat) (T f : String)
    (hT : (h.read a).get T = none) :
    ((deleteResolverEntry h a T f).read a).get f = none := by
  rcases deleteResolverEntry_cases h a T f with ⟨heq, _, hfl⟩ | ⟨c, hc, _, heq⟩ | ⟨htop, _, heq⟩
  · rw [heq]; exact hfl
  · rw [hc] at hT; cases hT
  · rw [heq]
    have halen : a < h.cells.length := Heap.read_lt_of_get_isSome h a f htop
    rw [Heap.read_write_lt h a _ halen]
    exact Obj.get_del_self _ _

theorem deleteResolverEntry_read_preserved (h : Heap) (aC : Nat) (T f : String) (a : Nat)
    (hne : aC ≠ a)
    (hrefs : ∀ c k, (h.read aC).get k = some (RVal.ref c) → c ≠ a) :
    (deleteResolverEntry h aC T f).read a = h.read a := by
  rcases deleteResolverEntry_cases h aC T f with ⟨heq, _, _⟩ | ⟨c, hT, _, heq⟩ | ⟨_, _, heq⟩
  · rw [heq]
  · rw [heq]; exact Heap.read_write_ne _ _ _ _ (hrefs c T hT)
  · rw [heq]; exact Heap.read_write_ne _ _ _ _ hne

theorem noNestedTrack_heapStep {h h' : Heap} {a : Nat} {T f : String}
    (hs : heapStep h h') (hn : NoNestedTrack h a T f) : NoNestedTrack h' a T f := by
  intro c hc
  exact heapStep_none hs (hn c (heapStep_some hs hc))

theorem deletePost_heapStep {h0 h h' : Heap} {a : Nat} {T f : String}
    (hs : heapStep h h') (hp : DeletePost h0 a T f h) : DeletePost h0 a T f h' :=
  ⟨noNestedTrack_heapStep hs hp.1, fun hT => heapStep_none hs (hp.2 hT)⟩

theorem deleteResolverEntry_deletePost (h0 h : Heap) (a : Nat) (T f : String)
    (hs : heapStep h0 h) : DeletePost h0 a T f (deleteResolverEntry h a T f) := by
  constructor
  · exact deleteResolverEntry_establishes h a T f
  · intro hT0
    exact deleteResolverEntry_flat h a T f (heapStep_none hs hT0)

/-! ## Generic preservation along the exception-aware loop -/

theorem exFold_preserve {σ α : Type _} (f : σ → α → Except JSError σ) (P : σ → Prop)
    (Q : α → Prop)
    (hf : ∀ st r st', Q r → f st r = .ok st' → P st → P st') :
    ∀ (l : List α) (st st' : σ), (∀ r ∈ l, Q r) → exFold f st l = .ok st' → P st → P st' := by
  intro l
  induction l with
  | nil =>
    intro st st' _ hok hp
    simp only [exFold] at hok
    cases hok
    exact hp
  | cons r t ih =>
    intro st st' hQ hok hp
    simp only [exFold] at hok
    cases hfr : f st r with
    | error e => rw [hfr] at hok; cases hok
    | ok s1 =>
      rw [hfr] at hok
      exact ih s1 st' (fun x hx => hQ x (List.mem_cons_of_mem _ hx)) hok
        (hf st r s1 (hQ r (List.mem_cons_self r t)) hfr hp)

theorem exFold_append {σ α : Type _} (f : σ → α → Except JSError σ)
    (l₁ l₂ : List α) (st : σ) :
    exFold f st (l₁ ++ l₂)
      = match exFold f st l₁ with
        | .error e => .error e
        | .ok s => exFold f s l₂ := by
  induction l₁ generalizing st with
  | nil => rfl
  | cons r t ih =>
    simp only [List.cons_append, exFold]
    cases f st r with
    | error e => rfl
    | ok s1 => exact ih s1

/-! ## Structural lemmas about the pare engine -/

theorem setColl_name (t : TypeDef) (s : String) (l : List SubNode) :
    (t.setColl s l).name = t.name := by
  unfold TypeDef.setColl
  split
  · rfl
  · split
    · rfl
    · split
      · rfl
      · split <;> rfl

theorem setColl_fields_of_ne (t : TypeDef) (s : String) (l : List SubNode)
    (hs : (s == "fields") = false) : (t.setColl s l).fields = t.fields := by
  unfold TypeDef.setColl
  split
  · rename_i hcond; rw [hcond] at hs; cases hs
  · split
    · rfl
    · split
      · rfl
      · split <;> rfl

/-- The two possible outcomes of one pare-loop iteration: no same-named
sub-node (state unchanged), or removal at the `fields`-derived index plus
the resolver-map deletion. -/
theorem pareStep_cases (s : String) (aAddr : Nat) (st : TypeDef × Heap) (r : SubNode)
    (st' : TypeDef × Heap) (hok : pareStep s aAddr st r = .ok st') :
    st' = st
    ∨ (∃ lSubs lSub fs,
        st.1.getColl s = some lSubs
        ∧ lSubs.find? (fun x => x.name == r.name) = some lSub
        ∧ st.1.fields = some fs
        ∧ st' = (st.1.setColl s (jsSplice lSubs (jsIndexOf fs lSub) 1 []),
                 deleteResolverEntry st.2 aAddr st.1.name lSub.name)) := by
  unfold pareStep at hok
  split at hok
  · exact Except.noConfusion hok
  · rename_i lSubs hcoll
    split at hok
    · cases hok; exact Or.inl rfl
    · rename_i lSub hfind
      split at hok
      · exact Except.noConfusion hok
      · rename_i fs hfields
        cases hok
        exact Or.inr ⟨lSubs, lSub, fs, hcoll, hfind, hfields, rfl⟩

theorem pareStep_name (s : String) (aAddr : Nat) (st : TypeDef × Heap) (r : SubNode)
    (st' : TypeDef × Heap) (hok : pareStep s aAddr st r = .ok st') :
    st'.1.name = st.1.name := by
  rcases pareStep_cases s aAddr st r st' hok with h1 | ⟨lSubs, lSub, fs, _, _, _, h2⟩
  · rw [h1]
  · rw [h2]; exact setColl_name _ _ _

theorem pareStep_heapStep (s : String) (aAddr : Nat) (st : TypeDef × Heap) (r : SubNode)
    (st' : TypeDef × Heap) (hok : pareStep s aAddr st r = .ok st') :
    heapStep st.2 st'.2 := by
  rcases pareStep_cases s aAddr st r st' hok with h1 | ⟨lSubs, lSub, fs, _, _, _, h2⟩
  · rw [h1]; exact heapStep_refl _
  · rw [h2]; exact heapStep_deleteResolverEntry _ _ _ _

theorem pareStep_fields_eq (s : String) (hs : (s == "fields") = false) (aAddr : Nat)
    (st : TypeDef × Heap) (r : SubNode) (st' : TypeDef × Heap)
    (hok : pareStep s aAddr st r = .ok st') :
    st'.1.fields = st.1.fields := by
  rcases pareStep_cases s aAddr st r st' hok with h1 | ⟨lSubs, lSub, fs, _, _, _, h2⟩
  · rw [h1]
  · rw [h2]; exact setColl_fields_of_ne _ _ _ hs

theorem pareTATS_props (s : String) (lT rT : TypeDef) (aAddr : Nat) (h : Heap)
    (out : TypeDef × Heap) (hok : pareTypeAndSubType s lT rT aAddr h = .ok out) :
    out.1.name = lT.name ∧ heapStep h out.2 := by
  unfold pareTypeAndSubType at hok
  cases hcoll : rT.getColl s with
  | none => rw [hcoll] at hok; exact Except.noConfusion hok
  | some rSubs =>
    rw [hcoll] at hok
    exact exFold_preserve (pareStep s aAddr)
      (fun st => st.1.name = lT.name ∧ heapStep h st.2) (fun _ => True)
      (fun st r st' _ hk hp =>
        ⟨(pareStep_name s aAddr st r st' hk).trans hp.1,
         heapStep_trans hp.2 (pareStep_heapStep s aAddr st r st' hk)⟩)
      rSubs (lT, h) out (fun _ _ => trivial) hok ⟨rfl, heapStep_refl h⟩

theorem pareTATS_dir_fields (lT rT : TypeDef) (aAddr : Nat) (h : Heap)
    (out : TypeDef × Heap) (hok : pareTypeAndSubType "directives" lT rT aAddr h = .ok out) :
    out.1.fields = lT.fields := by
  unfold pareTypeAndSubType at hok
  cases hcoll : rT.getColl "directives" with
  | none => rw [hcoll] at hok; exact Except.noConfusion hok
  | some rSubs =>
    rw [hcoll] at hok
    exact exFold_preserve (pareStep "directives" aAddr)
      (fun st => st.1.fields = lT.fields) (fun _ => True)
      (fun st r st' _ hk hp =>
        (pareStep_fields_eq "directives" (by decide) aAddr st r st' hk).trans hp)
      rSubs (lT, h) out (fun _ _ => trivial) hok rfl

theorem pareTATS_HP (HP : Heap → Prop) (aAddr : Nat)
    (hcl : ∀ hh T2 f2, HP hh → HP (deleteResolverEntry hh aAddr T2 f2))
    (s : String) (lT rT : TypeDef) (h : Heap) (out : TypeDef × Heap)
    (hok : pareTypeAndSubType s lT rT aAddr h = .ok out) (hp : HP h) : HP out.2 := by
  unfold pareTypeAndSubType at hok
  cases hcoll : rT.getColl s with
  | none => rw [hcoll] at hok; exact Except.noConfusion hok
  | some rSubs =>
    rw [hcoll] at hok
    refine exFold_preserve (pareStep s aAddr) (fun st => HP st.2) (fun _ => True)
      ?_ rSubs (lT, h) out (fun _ _ => trivial) hok hp
    intro st r st' _ hk hq
    rcases pareStep_cases s aAddr st r st' hk with h1 | ⟨lSubs, lSub, fs, _, _, _, h2⟩
    · rw [h1]; exact hq
    · rw [h2]; exact hcl st.2 st.1.name lSub.name hq

/-- The heap-relevant outcome of one outer pare-loop iteration. -/
theorem pareOne_HP (HP : Heap → Prop) (aAddr : Nat)
    (hcl : ∀ hh T2 f2, HP hh → HP (deleteResolverEntry hh aAddr T2 f2))
    (st : Document × Heap) (d : TypeDef) (st' : Document × Heap)
    (hok : pareOne aAddr st d = .ok st') (hp : HP st.2) : HP st'.2 := by
  simp only [pareOne] at hok
  split at hok
  · cases hok; exact hp
  · rename_i lType hfind
    split at hok
    · -- enum branch
      split at hok
      · exact Except.noConfusion hok
      · rename_i o1 h1 heq1
        split at hok
        · exact Except.noConfusion hok
        · rename_i o2 h2 heq2
          split at hok
          · exact Except.noConfusion hok
          · rename_i vs hvals
            cases hok
            exact pareTATS_HP HP aAddr hcl _ _ _ _ _ heq2
              (pareTATS_HP HP aAddr hcl _ _ _ _ _ heq1 hp)
    · split at hok
      · -- union branch
        split at hok
        · exact Except.noConfusion hok
        · rename_i o1 h1 heq1
          split at hok
          · exact Except.noConfusion hok
          · rename_i o2 h2 heq2
            split at hok
            · exact Except.noConfusion hok
            · rename_i ts htys
              cases hok
              exact pareTATS_HP HP aAddr hcl _ _ _ _ _ heq2
                (pareTATS_HP HP aAddr hcl _ _ _ _ _ heq1 hp)
      · split at hok
        · -- dead scalar branch
          cases hok
          exact hp
        · -- object / default branch
          split at hok
          · exact Except.noConfusion hok
          · rename_i o1 h1 heq1
            split at hok
            · exact Except.noConfusion hok
            · rename_i o2 h2 heq2
              split at hok
              · exact Except.noConfusion hok
              · rename_i fs hfs
                cases hok
                exact pareTATS_HP HP aAddr hcl _ _ _ _ _ heq2
                  (pareTATS_HP HP aAddr hcl _ _ _ _ _ heq1 hp)

theorem parefold_HP (HP : Heap → Prop) (aAddr : Nat)
    (hcl : ∀ hh T2 f2, HP hh → HP (deleteResolverEntry hh aAddr T2 f2))
    (rDefs : Document) (st : Document × Heap) (st' : Document × Heap)
    (hok : exFold (pareOne aAddr) st rDefs = .ok st') (hp : HP st.2) : HP st'.2 :=
  exFold_preserve (pareOne aAddr) (fun q => HP q.2) (fun _ => True)
    (fun q d q' _ hk hq => pareOne_HP HP aAddr hcl q d q' hk hq)
    rDefs st st' (fun _ _ => trivial) hok hp

theorem Heap.read_alloc_old (h : Heap) (o : Obj) (x : Nat) (hx : x < h.cells.length) :
    (h.alloc o).1.read x = h.read x := by
  simp [Heap.alloc, Heap.read, List.getD_eq_getElem?_getD, List.getElem?_append, hx]

theorem Heap.read_alloc_new (h : Heap) (o : Obj) :
    (h.alloc o).1.read (h.alloc o).2 = o := by
  simp [Heap.alloc, Heap.read, List.getD_eq_getElem?_getD]

theorem objRefsAvoid_get {o : Obj} {a : Nat}
    (hall : o.all (fun e => match e.2 with
            | RVal.ref c => c != a
            | RVal.fn _ => true) = true)
    {c : Nat} {k : String} (hget : o.get k = some (RVal.ref c)) : c ≠ a := by
  unfold Obj.get at hget
  cases hfind : o.find? (fun e => e.1 == k) with
  | none => rw [hfind] at hget; cases hget
  | some e =>
    rw [hfind] at hget
    simp only [Option.map_some', Option.some.injEq] at hget
    have hmem := List.mem_of_find?_eq_some hfind
    have htrue := (List.all_eq_true.mp hall) e hmem
    rw [hget] at htrue
    simpa using htrue

/-- C6 (amended): `pareSDL` allocates a fresh top-level map object — the
shallow clone `Object.assign` of the caller's map — and every resolver-map
mutation it performs targets that clone or the inner objects it references;
provided the caller's map does not reference its own top-level object, the
caller's top-level object itself is never touched.  (The nested inner
objects, shared between the clone and the caller's map, are mutated — that
is the counterexample to the claim as stated.) -/
theorem pare_returns_fresh_shallow_clone (lDefs rDefs : Document) (a : Nat) (h : Heap)
    (doc' : Document) (a' : Nat) (h' : Heap)
    (ha : a < h.cells.length)
    (hrefs : (h.read a).all (fun e => match e.2 with
              | RVal.ref c => c != a
              | RVal.fn _ => true) = true)
    (hok : pareSDL lDefs rDefs a h = .ok (doc', a', h')) :
    a' = h.cells.length ∧ a' ≠ a ∧ h'.read a = h.read a := by
  simp only [pareSDL] at hok
  split at hok
  · exact Except.noConfusion hok
  · rename_i doc h2 hfold
    cases hok
    have ha2 : (h.alloc (h.read a)).2 = h.cells.length := rfl
    have hne : (h.alloc (h.read a)).2 ≠ a := by rw [ha2]; omega
    have hreada : (h.alloc (h.read a)).1.read a = h.read a :=
      Heap.read_alloc_old h (h.read a) a ha
    have hP := parefold_HP
      (fun hh => heapStep (h.alloc (h.read a)).1 hh
        ∧ hh.read a = (h.alloc (h.read a)).1.read a)
      (h.alloc (h.read a)).2
      (by
        intro hh T2 f2 hp
        refine ⟨heapStep_trans hp.1
          (heapStep_deleteResolverEntry hh (h.alloc (h.read a)).2 T2 f2), ?_⟩
        have hrefs2 : ∀ c k,
            (hh.read (h.alloc (h.read a)).2).get k = some (RVal.ref c) → c ≠ a := by
          intro c k hck
          have h0ck := heapStep_some hp.1 hck
          rw [Heap.read_alloc_new h (h.read a)] at h0ck
          exact objRefsAvoid_get hrefs h0ck
        rw [deleteResolverEntry_read_preserved hh (h.alloc (h.read a)).2 T2 f2 a hne hrefs2]
        exact hp.2)
      rDefs (lDefs, (h.alloc (h.read a)).1) (doc', h') hfold
      ⟨heapStep_refl _, rfl⟩
    exact ⟨ha2, by rw [ha2]; omega, hP.2.trans hreada⟩

/-- Witness for the amended C6 at the concrete nested-map scenario. -/
theorem pare_returns_fresh_shallow_clone_witness :
    (0 < nestedHeap.cells.length
      ∧ (nestedHeap.read 0).all (fun e => match e.2 with
          | RVal.ref c => c != 0
          | RVal.fn _ => true) = true)
    ∧ (2 = nestedHeap.cells.length ∧ (2 : Nat) ≠ 0
        ∧ nestedHeapAfter.read 0 = nestedHeap.read 0) :=
  ⟨⟨by decide, by decide⟩,
   pare_returns_fresh_shallow_clone
     [objectType "Foo" [] [fieldDef "a" "Int"]] [objectType "Foo" [] [fieldDef "a" "Int"]]
     0 nestedHeap [] 2 nestedHeapAfter (by decide) (by decide) rfl⟩

/-! ## Exact-removal lemmas: the spliced-out element is the found one -/

theorem find?_key_cons_pos {β : Type _} (key : β → String) (d : β) (t : List β) (N : String)
    (hd : (key d == N) = true) :
    (d :: t).find? (fun q => key q == N) = some d := by
  simp [List.find?_cons, hd]

theorem find?_key_cons_neg {β : Type _} (key : β → String) (d : β) (t : List β) (N : String)
    (hd : (key d == N) = false) :
    (d :: t).find? (fun q => key q == N) = t.find? (fun q => key q == N) := by
  simp [List.find?_cons, hd]

theorem jsSplice_ofNat (l : List α) (i del : Nat) (items : List α) :
    jsSplice l (i : Int) del items = l.take i ++ items ++ l.drop (i + del) := by
  unfold jsSplice
  have h0 : ¬((i : Int) < 0) := by omega
  simp only [if_neg h0, Int.toNat_ofNat]
  rcases le_or_lt i l.length with hle | hlt
  · rw [min_eq_left hle]
  · rw [min_eq_right (le_of_lt hlt)]
    rw [List.take_length, List.take_of_length_le (le_of_lt hlt)]
    rw [List.drop_eq_nil_of_le (by omega), List.drop_eq_nil_of_le (by omega)]

theorem jsIndexOfAux_isSome_of_mem [BEq α] [LawfulBEq α] (x : α) (l : List α)
    (hm : x ∈ l) : (jsIndexOfAux x l).isSome = true := by
  induction l with
  | nil => cases hm
  | cons y t ih =>
    unfold jsIndexOfAux
    by_cases hxy : (y == x) = true
    · rw [if_pos hxy]; rfl
    · rw [if_neg hxy]
      rcases List.mem_cons.mp hm with h1 | h1
      · exact absurd (by rw [h1]; exact beq_self_eq_true y) hxy
      · cases haux : jsIndexOfAux x t with
        | none => rw [haux] at ih; exact absurd (ih h1) (by simp)
        | some j => simp [haux]

/-- Removing the element `indexOf` locates for a name `n ≠ f` keeps a
sub-node named `f` findable. -/
theorem find?_isSome_splice (lfs : List SubNode) (n f : String) (lSub : SubNode)
    (hnf : n ≠ f)
    (hfind : lfs.find? (fun s => s.name == n) = some lSub)
    (hf : (lfs.find? (fun s => s.name == f)).isSome = true) :
    ((jsSplice lfs (jsIndexOf lfs lSub) 1 []).find? (fun s => s.name == f)).isSome = true := by
  induction lfs with
  | nil => cases hfind
  | cons x t ih =>
    have hsubn : (lSub.name == n) = true := by
      have := List.find?_some hfind
      simpa using this
    by_cases hx : (x.name == n) = true
    · -- the head is the found element
      rw [find?_key_cons_pos SubNode.name x t n hx] at hfind
      cases hfind
      have hidx : jsIndexOf (lSub :: t) lSub = ((0 : Nat) : Int) := by
        unfold jsIndexOf jsIndexOfAux
        rw [if_pos (beq_self_eq_true lSub)]
      rw [hidx, jsSplice_ofNat]
      simp only [List.take_zero, List.nil_append, List.drop_succ_cons, List.drop_zero]
      have hxf : (lSub.name == f) = false :=
        beq_eq_false_iff_ne.mpr (fun hq => hnf ((eq_of_beq hx) ▸ hq))
      rw [find?_key_cons_neg SubNode.name lSub t f hxf] at hf
      exact hf
    · have hx' : (x.name == n) = false := Bool.eq_false_iff.mpr hx
      rw [find?_key_cons_neg SubNode.name x t n hx'] at hfind
      have hmem : lSub ∈ t := List.mem_of_find?_eq_some hfind
      have hxl : (x == lSub) = false := by
        cases hq : x == lSub
        · rfl
        · exfalso
          have hxeq : x = lSub := eq_of_beq hq
          rw [hxeq, hsubn] at hx'
          cases hx'
      obtain ⟨j, hj⟩ := Option.isSome_iff_exists.mp (jsIndexOfAux_isSome_of_mem lSub t hmem)
      have hidx : jsIndexOf (x :: t) lSub = ((j + 1 : Nat) : Int) := by
        unfold jsIndexOf jsIndexOfAux
        rw [if_neg (by simp [hxl]), hj]
        rfl
      have hidxt : jsIndexOf t lSub = ((j : Nat) : Int) := by
        unfold jsIndexOf
        rw [hj]
      rw [hidx, jsSplice_ofNat]
      have hcons : (x :: t).take (j + 1) ++ ([] : List SubNode) ++ (x :: t).drop (j + 1 + 1)
          = x :: (t.take j ++ [] ++ t.drop (j + 1)) := by
        rw [List.take_succ_cons, List.drop_succ_cons]
        rfl
      rw [hcons]
      by_cases hxf : (x.name == f) = true
      · rw [find?_key_cons_pos SubNode.name x _ f hxf]
        rfl
      · have hxf' : (x.name == f) = false := Bool.eq_false_iff.mpr hxf
        rw [find?_key_cons_neg SubNode.name x _ f hxf']
        rw [find?_key_cons_neg SubNode.name x t f hxf'] at hf
        have hres := ih hfind hf
        rw [hidxt, jsSplice_ofNat] at hres
        exact hres

/-! ## Document lookup preservation along the pare loop -/

theorem find?_name_append_unit (l : Document) (x lT : TypeDef) (N : String)
    (h : l.find? (fun d => d.name == N) = some lT) :
    (l ++ [x]).find? (fun d => d.name == N) = some lT := by
  rw [List.find?_append, h]
  rfl

theorem find?_name_replaceNode (l : Document) (old new lT : TypeDef) (N : String)
    (hold : (old.name == N) = false) (hnew : (new.name == N) = false)
    (h : l.find? (fun d => d.name == N) = some lT) :
    (replaceNode l old new).find? (fun d => d.name == N) = some lT := by
  induction l with
  | nil => cases h
  | cons d t ih =>
    unfold replaceNode
    by_cases hdo : (d == old) = true
    · rw [if_pos hdo]
      have hdeq : d = old := eq_of_beq hdo
      have hd : (d.name == N) = false := by rw [hdeq]; exact hold
      rw [find?_key_cons_neg TypeDef.name d t N hd] at h
      rw [find?_key_cons_neg TypeDef.name new t N hnew]
      exact h
    · rw [if_neg hdo]
      by_cases hdN : (d.name == N) = true
      · rw [find?_key_cons_pos TypeDef.name d t N hdN] at h
        rw [find?_key_cons_pos TypeDef.name d _ N hdN]
        exact h
      · have hdN' : (d.name == N) = false := Bool.eq_false_iff.mpr hdN
        rw [find?_key_cons_neg TypeDef.name d t N hdN'] at h
        rw [find?_key_cons_neg TypeDef.name d _ N hdN']
        exact ih h

theorem find?_name_removeFirst (l : Document) (x lT : TypeDef) (N : String)
    (hx : (x.name == N) = false)
    (h : l.find? (fun d => d.name == N) = some lT) :
    (removeFirst l x).find? (fun d => d.name == N) = some lT := by
  induction l with
  | nil => cases h
  | cons d t ih =>
    unfold removeFirst
    by_cases hdx : (d == x) = true
    · rw [if_pos hdx]
      have hdeq : d = x := eq_of_beq hdx
      have hd : (d.name == N) = false := by rw [hdeq]; exact hx
      rw [find?_key_cons_neg TypeDef.name d t N hd] at h
      exact h
    · rw [if_neg hdx]
      by_cases hdN : (d.name == N) = true
      · rw [find?_key_cons_pos TypeDef.name d t N hdN] at h
        rw [find?_key_cons_pos TypeDef.name d _ N hdN]
        exact h
      · have hdN' : (d.name == N) = false := Bool.eq_false_iff.mpr hdN
        rw [find?_key_cons_neg TypeDef.name d t N hdN'] at h
        rw [find?_key_cons_neg TypeDef.name d _ N hdN']
        exact ih h

theorem getColl_fields (t : TypeDef) : t.getColl "fields" = t.fields := rfl

theorem setColl_fields_self (t : TypeDef) (l : List SubNode) :
    (t.setColl "fields" l).fields = some l := rfl

theorem normExt_fields (r : TypeDef) : (normalizeExtensionNode r).fields = r.fields := rfl

theorem pareOne_find_preserved (aAddr : Nat) (N : String) (lT : TypeDef)
    (st : Document × Heap) (d : TypeDef) (st' : Document × Heap)
    (hd : (d.name == N) = false)
    (hok : pareOne aAddr st d = .ok st')
    (hfind : st.1.find? (fun t => t.name == N) = some lT) :
    st'.1.find? (fun t => t.name == N) = some lT := by
  simp only [pareOne] at hok
  split at hok
  · cases hok
    exact find?_name_append_unit st.1 (normalizeExtensionNode d) lT N hfind
  · rename_i lType hfind0
    have hln : (lType.name == N) = false := by
      have h1 : (lType.name == d.name) = true := by
        have := List.find?_some hfind0
        simpa using this
      rw [eq_of_beq h1]
      exact hd
    split at hok
    · -- enum branch
      split at hok
      · exact Except.noConfusion hok
      · rename_i o1 h1 heq1
        split at hok
        · exact Except.noConfusion hok
        · rename_i o2 h2 heq2
          split at hok
          · exact Except.noConfusion hok
          · rename_i vs hvals
            cases hok
            have hname2 : o2.name = lType.name :=
              ((pareTATS_props _ _ _ _ _ _ heq2).1).trans (pareTATS_props _ _ _ _ _ _ heq1).1
            have hn2 : (o2.name == N) = false := by rw [hname2]; exact hln
            have hrepl := find?_name_replaceNode st.1 lType o2 lT N hln hn2 hfind
            by_cases hempty : vs.isEmpty = true
            · simp only [hempty, if_true]
              exact find?_name_removeFirst _ o2 lT N hn2 hrepl
            · simp only [Bool.eq_false_iff.mpr hempty, if_false]
              exact hrepl
    · split at hok
      · -- union branch
        split at hok
        · exact Except.noConfusion hok
        · rename_i o1 h1 heq1
          split at hok
          · exact Except.noConfusion hok
          · rename_i o2 h2 heq2
            split at hok
            · exact Except.noConfusion hok
            · rename_i ts htys
              cases hok
              have hname2 : o2.name = lType.name :=
                ((pareTATS_props _ _ _ _ _ _ heq2).1).trans (pareTATS_props _ _ _ _ _ _ heq1).1
              have hn2 : (o2.name == N) = false := by rw [hname2]; exact hln
              have hrepl := find?_name_replaceNode st.1 lType o2 lT N hln hn2 hfind
              by_cases hempty : ts.isEmpty = true
              · simp only [hempty, if_true]
                exact find?_name_removeFirst _ o2 lT N hn2 hrepl
              · simp only [Bool.eq_false_iff.mpr hempty, if_false]
                exact hrepl
      · split at hok
        · -- dead scalar branch
          cases hok
          exact find?_name_removeFirst st.1 lType lT N hln hfind
        · -- object / default branch
          split at hok
          · exact Except.noConfusion hok
          · rename_i o1 h1 heq1
            split at hok
            · exact Except.noConfusion hok
            · rename_i o2 h2 heq2
              split at hok
              · exact Except.noConfusion hok
              · rename_i fs hfs
                cases hok
                have hname2 : o2.name = lType.name :=
                  ((pareTATS_props _ _ _ _ _ _ heq2).1).trans (pareTATS_props _ _ _ _ _ _ heq1).1
                have hn2 : (o2.name == N) = false := by rw [hname2]; exact hln
                have hrepl := find?_name_replaceNode st.1 lType o2 lT N hln hn2 hfind
                by_cases hempty : fs.isEmpty = true
                · simp only [hempty, if_true]
                  exact find?_name_removeFirst _ o2 lT N hn2 hrepl
                · simp only [Bool.eq_false_iff.mpr hempty, if_false]
                  exact hrepl

theorem parefold_find_preserved (aAddr : Nat) (N : String) (lT : TypeDef)
    (rDefs : Document) (st st' : Document × Heap)
    (hQ : ∀ d ∈ rDefs, (d.name == N) = false)
    (hok : exFold (pareOne aAddr) st rDefs = .ok st')
    (hfind : st.1.find? (fun t => t.name == N) = some lT) :
    st'.1.find? (fun t => t.name == N) = some lT :=
  exFold_preserve (pareOne aAddr)
    (fun q => q.1.find? (fun t => t.name == N) = some lT)
    (fun d => (d.name == N) = false)
    (fun q d q' hQd hk hp => pareOne_find_preserved aAddr N lT q d q' hQd hk hp)
    rDefs st st' hQ hok hfind

/-- Running the `fields` pass over `M₁ ++ rsub :: M₂`, where `rsub` names a
field `f` the container still declares and the earlier right-hand sub-nodes
name other fields, performs the synchronizer deletion for `(T, f)`; from
then on only further deletions happen, so the post-condition survives to the
end of the pass. -/
theorem pareTATS_fields_deletes (aAddr : Nat) (h0 : Heap) (T f : String)
    (M₁ : List SubNode) :
    ∀ (rsub : SubNode) (M₂ : List SubNode) (st out : TypeDef × Heap),
      rsub.name = f →
      (∀ m ∈ M₁, (m.name == f) = false) →
      st.1.name = T →
      ∀ lfs, st.1.fields = some lfs →
      (lfs.find? (fun s => s.name == f)).isSome = true →
      heapStep h0 st.2 →
      exFold (pareStep "fields" aAddr) st (M₁ ++ rsub :: M₂) = .ok out →
      DeletePost h0 aAddr T f out.2 ∧ heapStep h0 out.2 := by
  induction M₁ with
  | nil =>
    intro rsub M₂ st out hrn hM1 hstn lfs hlfs hfm hhs hok
    obtain ⟨lSub, hfind⟩ := Option.isSome_iff_exists.mp hfm
    have hg : st.1.getColl "fields" = some lfs := by rw [getColl_fields]; exact hlfs
    have hstep : pareStep "fields" aAddr st rsub
        = .ok (st.1.setColl "fields" (jsSplice lfs (jsIndexOf lfs lSub) 1 []),
               deleteResolverEntry st.2 aAddr st.1.name lSub.name) := by
      unfold pareStep
      rw [hg]
      simp only [hrn, hfind, hlfs]
    have hsname : lSub.name = f := by
      have hp := List.find?_some hfind
      exact eq_of_beq (by simpa using hp)
    simp only [List.nil_append, exFold] at hok
    rw [hstep, hstn, hsname] at hok
    have hpost : DeletePost h0 aAddr T f (deleteResolverEntry st.2 aAddr T f) :=
      deleteResolverEntry_deletePost h0 st.2 aAddr T f hhs
    have hhs2 : heapStep h0 (deleteResolverEntry st.2 aAddr T f) :=
      heapStep_trans hhs (heapStep_deleteResolverEntry st.2 aAddr T f)
    refine exFold_preserve (pareStep "fields" aAddr)
      (fun q => DeletePost h0 aAddr T f q.2 ∧ heapStep h0 q.2) (fun _ => True)
      ?_ M₂ _ out (fun _ _ => trivial) hok ⟨hpost, hhs2⟩
    intro q r q' _ hk hp
    rcases pareStep_cases _ _ _ _ _ hk with hsame | ⟨lSubs2, lSub2, fs2, _, _, _, hdel⟩
    · rw [hsame]; exact hp
    · rw [hdel]
      exact ⟨deletePost_heapStep (heapStep_deleteResolverEntry _ _ _ _) hp.1,
             heapStep_trans hp.2 (heapStep_deleteResolverEntry _ _ _ _)⟩
  | cons m M₁ ih =>
    intro rsub M₂ st out hrn hM1 hstn lfs hlfs hfm hhs hok
    simp only [List.cons_append, exFold] at hok
    cases hstep : pareStep "fields" aAddr st m with
    | error e => rw [hstep] at hok; exact Except.noConfusion hok
    | ok st1 =>
      rw [hstep] at hok
      have hname1 : st1.1.name = T := (pareStep_name _ _ _ _ _ hstep).trans hstn
      have hhs1 : heapStep h0 st1.2 := heapStep_trans hhs (pareStep_heapStep _ _ _ _ _ hstep)
      have hmf : (m.name == f) = false := hM1 m (List.mem_cons_self m M₁)
      have hM1t : ∀ q ∈ M₁, (q.name == f) = false :=
        fun q hq => hM1 q (List.mem_cons_of_mem _ hq)
      rcases pareStep_cases _ _ _ _ _ hstep with hsame | ⟨lSubs, lSubm, fs, hcoll, hfindm, hfieldsm, hdel⟩
      · refine ih rsub M₂ st1 out hrn hM1t hname1 lfs ?_ hfm hhs1 hok
        rw [hsame]; exact hlfs
      · have hlse : lSubs = lfs := by
          rw [getColl_fields, hlfs] at hcoll
          exact (Option.some.inj hcoll).symm
        have hfse : fs = lfs := by
          rw [hlfs] at hfieldsm
          exact (Option.some.inj hfieldsm).symm
        rw [hlse, hfse] at hdel
        rw [hlse] at hfindm
        have hfields1 : st1.1.fields
            = some (jsSplice lfs (jsIndexOf lfs lSubm) 1 []) := by
          rw [hdel]
          exact setColl_fields_self _ _
        have hmne : m.name ≠ f := by
          intro hq
          rw [hq] at hmf
          rw [beq_self_eq_true f] at hmf
          cases hmf
        have hfm1 : ((jsSplice lfs (jsIndexOf lfs lSubm) 1 []).find?
            (fun s => s.name == f)).isSome = true :=
          find?_isSome_splice lfs m.name f lSubm hmne hfindm hfm
        exact ih rsub M₂ st1 out hrn hM1t hname1 _ hfields1 hfm1 hhs1 hok

theorem exFold_append_ok_split {σ α : Type _} (f : σ → α → Except JSError σ)
    (l₁ l₂ : List α) (st st' : σ) (h : exFold f st (l₁ ++ l₂) = .ok st') :
    ∃ stm, exFold f st l₁ = .ok stm ∧ exFold f stm l₂ = .ok st' := by
  rw [exFold_append] at h
  cases hmid : exFold f st l₁ with
  | error e => rw [hmid] at h; exact Except.noConfusion h
  | ok stm => rw [hmid] at h; exact ⟨stm, rfl, h⟩

theorem exFold_cons_ok_split {σ α : Type _} (f : σ → α → Except JSError σ)
    (r : α) (l : List α) (st st' : σ) (h : exFold f st (r :: l) = .ok st') :
    ∃ st1, f st r = .ok st1 ∧ exFold f st1 l = .ok st' := by
  simp only [exFold] at h
  cases hstep : f st r with
  | error e => rw [hstep] at h; exact Except.noConfusion h
  | ok st1 => rw [hstep] at h; exact ⟨st1, rfl, h⟩

/-- C5 (amended): paring a field `f` (the sub-node `rsub`) of the type named
by `rT` — present in the target as `lT`, an object-branch container that
still declares the field — deletes the resolver-map entry for it: the
resulting map has no nested entry `resolverMap[T][f]` any more, and when the
caller's map had no entry for `T` at all (flattened root form), no top-level
entry `resolverMap[f]` either.  (A leaf can still survive naming the removed
field when the field was tracked under both forms at once — the
counterexample — so the claim's general every-leaf invariant fails.) -/
theorem pare_removes_resolver_map_entry
    (lDefs : Document) (L₁ L₂ : List TypeDef) (rT lT : TypeDef)
    (rfs M₁ M₂ : List SubNode) (rsub : SubNode) (lfs : List SubNode)
    (a : Nat) (h : Heap) (doc' : Document) (a' : Nat) (h' : Heap)
    (hL1 : ∀ d ∈ L₁, (d.name == rT.name) = false)
    (hfind : lDefs.find? (fun d => d.name == rT.name) = some lT)
    (hk1 : (lT.kind == "EnumTypeDefinition") = false)
    (hk2 : (lT.kind == "UnionTypeDefinition") = false)
    (hk3 : (lT.kind == "ScalarTypeDefinitionNode") = false)
    (hrfs : rT.fields = some rfs)
    (hfsplit : rfs = M₁ ++ rsub :: M₂)
    (hM1 : ∀ m ∈ M₁, (m.name == rsub.name) = false)
    (hlfs : lT.fields = some lfs)
    (hmatch : (lfs.find? (fun s => s.name == rsub.name)).isSome = true)
    (hok : pareSDL lDefs (L₁ ++ rT :: L₂) a h = .ok (doc', a', h')) :
    (∀ c, (h'.read a').get rT.name = some (RVal.ref c) → (h'.read c).get rsub.name = none)
    ∧ ((h.read a).get rT.name = none → (h'.read a').get rsub.name = none) := by
  simp only [pareSDL] at hok
  split at hok
  · exact Except.noConfusion hok
  · rename_i doc h2 hfold
    cases hok
    obtain ⟨mid, hmid, hrest⟩ :=
      exFold_append_ok_split (pareOne (h.alloc (h.read a)).2) L₁ (rT :: L₂)
        (lDefs, (h.alloc (h.read a)).1) (doc', h') hfold
    obtain ⟨st2, hone, htail⟩ :=
      exFold_cons_ok_split (pareOne (h.alloc (h.read a)).2) rT L₂ mid (doc', h') hrest
    have hmidfind : mid.1.find? (fun t => t.name == rT.name) = some lT :=
      parefold_find_preserved _ rT.name lT L₁ _ mid hL1 hmid hfind
    have hmidheap : heapStep (h.alloc (h.read a)).1 mid.2 :=
      parefold_HP (fun hh => heapStep (h.alloc (h.read a)).1 hh) _
        (fun hh T2 f2 hp => heapStep_trans hp (heapStep_deleteResolverEntry hh _ T2 f2))
        L₁ _ mid hmid (heapStep_refl _)
    simp only [pareOne] at hone
    rw [hmidfind] at hone
    split at hone
    · rename_i hcond; exact Option.noConfusion hcond
    · rename_i lType hsome
      have hlt : lType = lT := (Option.some.inj hsome).symm
      rw [hlt] at hone
      split at hone
      · rename_i hcond; rw [hk1] at hcond; cases hcond
      · split at hone
        · rename_i hcond; rw [hk2] at hcond; cases hcond
        · split at hone
          · rename_i hcond; rw [hk3] at hcond; cases hcond
          · split at hone
            · exact Except.noConfusion hone
            · rename_i o1 h1 heq1
              split at hone
              · exact Except.noConfusion hone
              · rename_i o2 h2x heq2
                split at hone
                · exact Except.noConfusion hone
                · rename_i fs2 hfs2
                  cases hone
                  have hlTname : lT.name = rT.name := by
                    have hp := List.find?_some hmidfind
                    exact eq_of_beq (by simpa using hp)
                  have h1name : o1.name = lT.name := (pareTATS_props _ _ _ _ _ _ heq1).1
                  have h1fields : o1.fields = lT.fields := pareTATS_dir_fields _ _ _ _ _ heq1
                  have h1heap : heapStep (h.alloc (h.read a)).1 h1 :=
                    heapStep_trans hmidheap (pareTATS_props _ _ _ _ _ _ heq1).2
                  unfold pareTypeAndSubType at heq2
                  have hrcoll : (normalizeExtensionNode rT).getColl "fields" = some rfs := by
                    rw [getColl_fields, normExt_fields, hrfs]
                  rw [hrcoll, hfsplit] at heq2
                  have hdelp := pareTATS_fields_deletes (h.alloc (h.read a)).2
                    (h.alloc (h.read a)).1 rT.name rsub.name M₁ rsub M₂ (o1, h1) (o2, h2x)
                    rfl hM1 (h1name.trans hlTname) lfs (h1fields.trans hlfs)
                    hmatch h1heap heq2
                  have hfinal := parefold_HP
                    (fun hh => DeletePost (h.alloc (h.read a)).1 (h.alloc (h.read a)).2
                        rT.name rsub.name hh
                      ∧ heapStep (h.alloc (h.read a)).1 hh)
                    (h.alloc (h.read a)).2
                    (fun hh T2 f2 hp =>
                      ⟨deletePost_heapStep (heapStep_deleteResolverEntry hh _ T2 f2) hp.1,
                       heapStep_trans hp.2 (heapStep_deleteResolverEntry hh _ T2 f2)⟩)
                    L₂ _ (doc', h') htail ⟨hdelp.1, hdelp.2⟩
                  refine ⟨hfinal.1.1, ?_⟩
                  intro hTnone
                  refine hfinal.1.2 ?_
                  rw [Heap.read_alloc_new h (h.read a)]
                  exact hTnone

/-- Witness for the amended C5 at the concrete nested-map scenario: paring
field `a` of `Foo` leaves the map with no nested entry for it. -/
theorem pare_removes_resolver_map_entry_witness :
    ((objectType "Foo" [] [fieldDef "a" "Int"]).kind == "EnumTypeDefinition") = false
    ∧ (∀ c, (nestedHeapAfter.read 2).get "Foo" = some (RVal.ref c)
        → (nestedHeapAfter.read c).get "a" = none)
    ∧ ((nestedHeap.read 0).get "Foo" = none
        → (nestedHeapAfter.read 2).get "a" = none) := by
  refine ⟨by decide, ?_⟩
  have hres := pare_removes_resolver_map_entry
    [objectType "Foo" [] [fieldDef "a" "Int"]] [] []
    (objectType "Foo" [] [fieldDef "a" "Int"]) (objectType "Foo" [] [fieldDef "a" "Int"])
    [fieldDef "a" "Int"] [] [] (fieldDef "a" "Int") [fieldDef "a" "Int"]
    0 nestedHeap [] 2 nestedHeapAfter
    (by intro d hd; cases hd) (by decide) (by decide) (by decide) (by decide)
    (by decide) (by decide) (by intro m hm; cases hm) (by decide) (by decide) rfl
  exact hres

end NeSchemata
